import Mathlib

/-!
Verification of the CDC (change data capture) engine of this repository:
the three change-detection strategies (timestamp, hash, hash-partition),
the state lifecycle they share, and the snapshot-writing pipeline.
Python dictionaries are modelled as association lists with first-match
lookup and replace-or-append insertion; the object store is modelled as an
association list together with read/write logs; the MD5 row fingerprint is
implemented bit-for-bit over `Nat` with explicit reduction modulo 2^32.
-/

/-! ## Association lists (Python `dict` with string keys) -/

/-- `dict.get(k)`: first binding of `k`, if any. -/
def alookup {α : Type} (l : List (String × α)) (k : String) : Option α :=
  match l with
  | [] => none
  | (k1, v1) :: rest => if k1 = k then some v1 else alookup rest k

/-- `k in dict`. -/
def acontains {α : Type} (l : List (String × α)) (k : String) : Bool :=
  (alookup l k).isSome

/-- `dict[k] = v`: replace the first binding of `k`, else append (Python
dicts keep the original position of an updated key and append new keys). -/
def ainsert {α : Type} (l : List (String × α)) (k : String) (v : α) :
    List (String × α) :=
  match l with
  | [] => [(k, v)]
  | (k1, v1) :: rest =>
    if k1 = k then (k1, v) :: rest else (k1, v1) :: ainsert rest k v

/-- Key list, in iteration order. -/
def akeys {α : Type} (l : List (String × α)) : List String :=
  l.map Prod.fst

/-! ## Scalar values of a row -/

/-- A scalar cell value as it appears in a fetched row. -/
inductive Value where
  | null
  | str (s : String)
  | int (n : Int)
  | bool (b : Bool)
deriving DecidableEq, Repr

/-- Python `str()` on a scalar: `str(None) = "None"`, strings unchanged,
integers in decimal, booleans as `"True"` / `"False"`. -/
def pyStr : Value → String
  | .null => "None"
  | .str s => s
  | .int n => toString n
  | .bool b => if b then "True" else "False"

/-- A row: ordered mapping from column name to scalar value
(`row.to_dict()` of a pandas row / `dict(row._mapping)`). -/
abbrev Row : Type := List (String × Value)

/-! ## MD5 over `Nat` (as computed by `hashlib.md5`) -/

/-- Addition modulo 2^32. -/
def add32 (a b : Nat) : Nat := (a + b) % 2 ^ 32

/-- Bitwise complement on 32 bits. -/
def not32 (a : Nat) : Nat := (2 ^ 32 - 1) ^^^ a

/-- Left rotation of a 32-bit word. -/
def rotl32 (x s : Nat) : Nat :=
  ((x <<< s) % 2 ^ 32) ||| (x >>> (32 - s))

/-- Little-endian byte list to natural number. -/
def leBytesToNat : List Nat → Nat
  | [] => 0
  | b :: bs => b % 256 + 256 * leBytesToNat bs

/-- `len` little-endian bytes of `n`. -/
def natToLeBytes : Nat → Nat → List Nat
  | 0, _ => []
  | len + 1, n => n % 256 :: natToLeBytes len (n / 256)

/-- Split a list into consecutive chunks of `size` elements (the last chunk
may be shorter); with `size = 0` the fuel is consumed one element at a
time, which never happens at the call sites (sizes are 64 and a positive
batch size). -/
def chunksGo {α : Type} (size : Nat) : Nat → List α → List (List α)
  | 0, _ => []
  | _, [] => []
  | fuel + 1, x :: xs =>
    ((x :: xs).take size) :: chunksGo size fuel ((x :: xs).drop size)

/-- Consecutive chunks of `size` elements of a list. -/
def chunksOf {α : Type} (size : Nat) (l : List α) : List (List α) :=
  chunksGo size l.length l

/-- The 64 per-step rotation amounts of MD5. -/
def md5S : List Nat :=
  [7, 12, 17, 22, 7, 12, 17, 22, 7, 12, 17, 22, 7, 12, 17, 22,
   5, 9, 14, 20, 5, 9, 14, 20, 5, 9, 14, 20, 5, 9, 14, 20,
   4, 11, 16, 23, 4, 11, 16, 23, 4, 11, 16, 23, 4, 11, 16, 23,
   6, 10, 15, 21, 6, 10, 15, 21, 6, 10, 15, 21, 6, 10, 15, 21]

/-- The 64 sine-derived constants of MD5. -/
def md5K : List Nat :=
  [3614090360, 3905402710, 606105819, 3250441966,
   4118548399, 1200080426, 2821735955, 4249261313,
   1770035416, 2336552879, 4294925233, 2304563134,
   1804603682, 4254626195, 2792965006, 1236535329,
   4129170786, 3225465664, 643717713, 3921069994,
   3593408605, 38016083, 3634488961, 3889429448,
   568446438, 3275163606, 4107603335, 1163531501,
   2850285829, 4243563512, 1735328473, 2368359562,
   4294588738, 2272392833, 1839030562, 4259657740,
   2763975236, 1272893353, 4139469664, 3200236656,
   681279174, 3936430074, 3572445317, 76029189,
   3654602809, 3873151461, 530742520, 3299628645,
   4096336452, 1126891415, 2878612391, 4237533241,
   1700485571, 2399980690, 4293915773, 2240044497,
   1873313359, 4264355552, 2734768916, 1309151649,
   4149444226, 3174756917, 718787259, 3951481745]

/-- The running 128-bit state of MD5 as four 32-bit words. -/
structure MD5State where
  a : Nat
  b : Nat
  c : Nat
  d : Nat
deriving DecidableEq, Repr

/-- Round function and message-word index of MD5 step `i`. -/
def md5FG (i b c d : Nat) : Nat × Nat :=
  if i < 16 then ((b &&& c) ||| (not32 b &&& d), i)
  else if i < 32 then ((d &&& b) ||| (not32 d &&& c), (5 * i + 1) % 16)
  else if i < 48 then (b ^^^ c ^^^ d, (3 * i + 5) % 16)
  else (c ^^^ (b ||| not32 d), (7 * i) % 16)

/-- One MD5 step on the state, given the 16 message words. -/
def md5Step (m : List Nat) (st : MD5State) (i : Nat) : MD5State :=
  let fg := md5FG i st.b st.c st.d
  let tmp := add32 (add32 (add32 fg.1 st.a) (md5K.getD i 0)) (m.getD fg.2 0)
  { a := st.d, b := add32 st.b (rotl32 tmp (md5S.getD i 0)), c := st.b,
    d := st.c }

/-- Process one padded 64-byte chunk. -/
def md5Chunk (st : MD5State) (chunk : List Nat) : MD5State :=
  let m := (List.range 16).map fun i => leBytesToNat ((chunk.drop (4 * i)).take 4)
  let r := (List.range 64).foldl (md5Step m) st
  { a := add32 st.a r.a, b := add32 st.b r.b, c := add32 st.c r.c,
    d := add32 st.d r.d }

/-- MD5 padding: a 1-bit, zeros to 56 mod 64, and the bit length as a
64-bit little-endian integer. -/
def md5Pad (msg : List Nat) : List Nat :=
  let zeros := (56 + 64 - (msg.length + 1) % 64) % 64
  msg ++ [128] ++ List.replicate zeros 0 ++
    natToLeBytes 8 ((8 * msg.length) % 2 ^ 64)

/-- The initial MD5 state. -/
def md5Init : MD5State :=
  { a := 1732584193, b := 4023233417, c := 2562383102, d := 271733878 }

/-- The 16 digest bytes of a byte message. -/
def md5Bytes (msg : List Nat) : List Nat :=
  let st := (chunksOf 64 (md5Pad msg)).foldl md5Chunk md5Init
  natToLeBytes 4 st.a ++ natToLeBytes 4 st.b ++ natToLeBytes 4 st.c ++
    natToLeBytes 4 st.d

/-- Lowercase hex digit. -/
def hexDigit (n : Nat) : Char :=
  if n < 10 then Char.ofNat (48 + n) else Char.ofNat (87 + n)

/-- Two lowercase hex digits of a byte. -/
def byteHex (b : Nat) : String := String.mk [hexDigit (b / 16), hexDigit (b % 16)]

/-- UTF-8 bytes of one character (`str.encode('utf-8')`, per code point). -/
def utf8Char (c : Char) : List Nat :=
  let n := c.toNat
  if n < 128 then [n]
  else if n < 2048 then [192 + n / 64, 128 + n % 64]
  else if n < 65536 then
    [224 + n / 4096, 128 + (n / 64) % 64, 128 + n % 64]
  else
    [240 + n / 262144, 128 + (n / 4096) % 64, 128 + (n / 64) % 64,
     128 + n % 64]

/-- UTF-8 bytes of a string. -/
def strUtf8 (s : String) : List Nat := s.data.flatMap utf8Char

/-- `hashlib.md5(text.encode('utf-8')).hexdigest()`: the lowercase 32-hex
MD5 digest of the UTF-8 bytes of a string. -/
def md5HexOfString (s : String) : String :=
  String.join ((md5Bytes (strUtf8 s)).map byteHex)

/-! ## Row fingerprint (`_calculate_row_hash`, identical in
`hash_strategy.py` and `hash_partition_strategy.py`) -/

/-- `str(val if val is not None else "")` on a cell value. -/
def renderHashValue : Value → String
  | .null => ""
  | v => pyStr v

/-- `sorted(row_dict.items())`: pairs in ascending key order (keys of a
dict are distinct, so the value never takes part in the comparison). -/
def sortedItems (row : Row) : Row :=
  List.mergeSort row (fun e1 e2 => decide (e1.1 ≤ e2.1))

/-- The list of rendered values hashed for a row: all values in ascending
column order when `"*"` occurs anywhere in `hash_columns`, otherwise the
values of the listed columns in the order given, silently skipping columns
absent from the row. -/
def hashValues (row : Row) (hash_columns : List String) : List String :=
  if hash_columns.contains "*" then
    (sortedItems row).map (fun e => renderHashValue e.2)
  else
    hash_columns.filterMap (fun col => (alookup row col).map renderHashValue)

/-- `HashCDCStrategy._calculate_row_hash` (and the identical
`HashPartitionCDCStrategy._calculate_row_hash`). -/
def calculateRowHash (row : Row) (hash_columns : List String) : String :=
  md5HexOfString (String.intercalate "|" (hashValues row hash_columns))

/-- Value rendering in the words of the specification §4.4: null as the
empty string, numbers and strings by their natural string form, booleans
as "true"/"false". -/
def specRender : Value → String
  | .null => ""
  | .str s => s
  | .int n => toString n
  | .bool b => if b then "true" else "false"

/-- The canonical serialization in the words of the specification §4.4,
for comparison with `hashValues`: wildcard selector enumerates pairs in
ascending column-name order, otherwise the selector's columns in the
order given. -/
def specCanonValues (row : Row) (selector : List String) : List String :=
  if selector = ["*"] then
    (sortedItems row).map (fun e => specRender e.2)
  else
    selector.map (fun col => specRender ((alookup row col).getD .null))

/-- The fingerprint in the words of the specification §4.4: MD5 of the
UTF-8 bytes of the `"|"`-join of the canonical serialization. -/
def specFingerprint (row : Row) (selector : List String) : String :=
  md5HexOfString (String.intercalate "|" (specCanonValues row selector))

/-! ## State store (`StorageManager` keyed state blobs) -/

/-- A persisted state blob: either a hash-state
`{row_hashes, processed_at}` or a timestamp-state
`{last_timestamp, processed_at}`. -/
inductive StateVal where
  | hashS (row_hashes : List (String × String)) (processed_at : String)
  | tsS (last_timestamp : String) (processed_at : String)
deriving DecidableEq, Repr

/-- The object store visible to a strategy: its contents plus the logs of
the keys passed to `retrieve_state` and `store_state`, in call order. -/
structure Storage where
  store : List (String × StateVal)
  reads : List String
  writes : List String
deriving DecidableEq, Repr

/-- `storage_manager.retrieve_state(key)`: `None` for a missing key. -/
def retrieveState (st : Storage) (key : String) : Option StateVal × Storage :=
  (alookup st.store key, { st with reads := st.reads ++ [key] })

/-- `storage_manager.store_state(key, value)`: overwrite at the key. -/
def storeState (st : Storage) (key : String) (v : StateVal) : Storage :=
  { st with store := ainsert st.store key v, writes := st.writes ++ [key] }

/-- `previous_state.get("row_hashes", {}) if previous_state else {}`. -/
def rowHashesOf : Option StateVal → List (String × String)
  | some (.hashS rh _) => rh
  | _ => []

/-- `last_state.get("last_timestamp") if last_state else None`. -/
def lastTimestampOf : Option StateVal → Option String
  | some (.tsS l _) => some l
  | _ => none

/-- ASCII lowercasing of one character (`str.lower()` per character; the
configuration's method and format strings are ASCII). -/
def pyLowerChar (c : Char) : Char :=
  if 'A' ≤ c ∧ c ≤ 'Z' then Char.ofNat (c.toNat + 32) else c

/-- `s.lower()` for ASCII strings. -/
def pyLower (s : String) : String := String.mk (s.data.map pyLowerChar)

/-! ## Result dictionaries and table configuration -/

/-- A value of a strategy / orchestrator result dictionary. -/
inductive RVal where
  | s (v : String)
  | n (v : Nat)
  | os (v : Option String)
  | rows (v : List Row)
  | strs (v : List String)
  | dict (v : List (String × RVal))

/-- A result dictionary. -/
abbrev RDict : Type := List (String × RVal)

/-- The per-table configuration entry, with `None` for absent keys and the
defaults the code supplies at each `get`. -/
structure TableConfig where
  datasource : Option String := none
  method : String := ""
  timestamp_column : Option String := none
  primary_key : Option String := none
  hash_columns : List String := []
  partition_size : Option Nat := none
  snapshot_format : Option String := none

/-- Python truthiness of an optional string: `None` and `""` are falsy. -/
def pyTruthyStr (o : Option String) : Bool :=
  match o with
  | none => false
  | some s => s ≠ ""

/-- An error result dictionary `{"status": "error", "message": msg}`. -/
def errResult (msg : String) : RDict :=
  [("status", RVal.s "error"), ("message", RVal.s msg)]

/-! ## Timestamp strategy (`TimestampCDCStrategy.process`).
The batch stream of `fetch_data_in_batches` is modelled as the consecutive
`batch_size` chunks of the rows the query returns; the watermark column is
modelled for string-typed values (the SQL predicate and the pandas
column maximum are both the code-point lexicographic comparison there). -/

/-- The timestamp value of a row when it is a string. -/
def tsStringOf (row : Row) (c : String) : Option String :=
  match alookup row c with
  | some (.str s) => some s
  | _ => none

/-- The rows selected by the predicate `timestamp_column > 'last'`
(SQL `NULL` comparisons select nothing). -/
def tsFilter (c : String) (last : String) (rows : List Row) : List Row :=
  rows.filter (fun r =>
    match tsStringOf r c with
    | some s => decide (last < s)
    | none => false)

/-- The column set of a fetched batch (pandas chunk). -/
def batchCols (b : List Row) : List String := akeys (b.headD [])

/-- The running maximum inside `str(batch[c].max())` for a string-typed
column. -/
def batchMaxStep (c : String) (acc : Option String) (r : Row) :
    Option String :=
  match tsStringOf r c with
  | some s =>
    some (match acc with
          | none => s
          | some m => if m < s then s else m)
  | none => acc

/-- `str(batch[c].max())` for a string-typed column. -/
def batchMaxTs (c : String) (b : List Row) : Option String :=
  b.foldl (batchMaxStep c) none

/-- The per-batch body of the timestamp scan: track the maximum timestamp
(`if not latest_timestamp or batch_max > latest`) and extend `changes`. -/
def tsBatchStep (c : String) (acc : Option String × List Row)
    (b : List Row) : Option String × List Row :=
  if b = [] then acc
  else
    let latest :=
      if (batchCols b).contains c then
        match batchMaxTs c b with
        | some m =>
          match acc.1 with
          | none => some m
          | some lt => if lt = "" || lt < m then some m else some lt
        | none => acc.1
      else acc.1
    (latest, acc.2 ++ b)

/-- `TimestampCDCStrategy.process`. -/
def timestampProcess (st : Storage) (table_name : String) (cfg : TableConfig)
    (datasource_name : String) (table_rows : List Row) (batch_size : Nat)
    (now : String) : RDict × Storage :=
  if ¬ pyTruthyStr cfg.timestamp_column then
    (errResult "No timestamp column specified", st)
  else
    let c := cfg.timestamp_column.getD ""
    let state_key := datasource_name ++ "/" ++ table_name ++ "/timestamp_state"
    let r1 := retrieveState st state_key
    let last_timestamp := lastTimestampOf r1.1
    let scanned :=
      if pyTruthyStr last_timestamp then
        tsFilter c (last_timestamp.getD "") table_rows
      else table_rows
    let res := (chunksOf batch_size scanned).foldl (tsBatchStep c)
      (last_timestamp, [])
    let latest := res.1
    let changes := res.2
    let st2 :=
      if pyTruthyStr latest ∧ latest ≠ last_timestamp then
        storeState r1.2 state_key (.tsS (latest.getD "") now)
      else r1.2
    ([("status", RVal.s "success"),
      ("table_name", RVal.s table_name),
      ("method", RVal.s "timestamp"),
      ("last_timestamp", RVal.os last_timestamp),
      ("new_timestamp", RVal.os latest),
      ("changes_count", RVal.n changes.length),
      ("changes", RVal.rows changes)], st2)

/-! ## Hash strategy (`HashCDCStrategy.process`).
`fetch_data_in_batches` with no predicate returns the whole table; the
row-by-row scan folds over the concatenation of the batches, so the table
is modelled as the flat row list (`batch.empty: continue` is a no-op of
that fold). -/

/-- `str(row_dict.get(primary_key, ""))`. -/
def pkString (row : Row) (primary_key : String) : String :=
  match alookup row primary_key with
  | none => ""
  | some v => pyStr v

/-- The accumulator of the scan loop: `current_hashes` and the `added` and
`modified` buckets. -/
structure HashScanAcc where
  cur : List (String × String)
  added : List Row
  modified : List Row
deriving Repr

/-- The loop body of the hash scan: skip rows with an empty primary-key
string, record the row hash, and classify against the previous hashes. -/
def hashScanStep (previous_hashes : List (String × String))
    (primary_key : String) (hash_columns : List String)
    (acc : HashScanAcc) (row : Row) : HashScanAcc :=
  let pk_value := pkString row primary_key
  if pk_value = "" then acc
  else
    let row_hash := calculateRowHash row hash_columns
    let acc1 := { acc with cur := ainsert acc.cur pk_value row_hash }
    match alookup previous_hashes pk_value with
    | some prev_hash =>
      if row_hash ≠ prev_hash then
        { acc1 with modified := acc1.modified ++ [row] }
      else acc1
    | none => { acc1 with added := acc1.added ++ [row] }

/-- The scan over all fetched rows. -/
def hashScan (previous_hashes : List (String × String)) (primary_key : String)
    (hash_columns : List String) (rows : List Row) : HashScanAcc :=
  rows.foldl (hashScanStep previous_hashes primary_key hash_columns)
    ⟨[], [], []⟩

/-- A deleted record `{"primary_key": <column-name>, "value": pk}`. -/
def deletedRecord (primary_key pk_value : String) : Row :=
  [("primary_key", Value.str primary_key), ("value", Value.str pk_value)]

/-- The post-scan sweep over the previous hashes: one deleted record per
previous primary key absent from `current_hashes`. -/
def hashDeleted (previous_hashes : List (String × String))
    (cur : List (String × String)) (primary_key : String) : List Row :=
  (previous_hashes.filter (fun e => !(acontains cur e.1))).map
    (fun e => deletedRecord primary_key e.1)

/-- `HashCDCStrategy.process`. -/
def hashProcess (st : Storage) (table_name : String) (cfg : TableConfig)
    (datasource_name : String) (table_rows : List Row) (now : String) :
    RDict × Storage :=
  if cfg.hash_columns = [] then
    (errResult "No hash columns specified", st)
  else if ¬ pyTruthyStr cfg.primary_key then
    (errResult "No primary key specified", st)
  else
    let primary_key := cfg.primary_key.getD ""
    let state_key := datasource_name ++ "/" ++ table_name ++ "/hash_state"
    let r1 := retrieveState st state_key
    let previous_hashes := rowHashesOf r1.1
    let scan := hashScan previous_hashes primary_key cfg.hash_columns table_rows
    let deleted := hashDeleted previous_hashes scan.cur primary_key
    let st2 := storeState r1.2 state_key (.hashS scan.cur now)
    ([("status", RVal.s "success"),
      ("table_name", RVal.s table_name),
      ("method", RVal.s "hash"),
      ("changes", RVal.dict
        [("added", RVal.n scan.added.length),
         ("modified", RVal.n scan.modified.length),
         ("deleted", RVal.n deleted.length)]),
      ("added", RVal.rows scan.added),
      ("modified", RVal.rows scan.modified),
      ("deleted", RVal.rows deleted)], st2)

/-! ## Hash-partition strategy (`HashPartitionCDCStrategy`).
The count query yields the length of the table; each partition issues
`SELECT * ... WHERE MOD(ABS(CAST(COALESCE(pk, 0) AS INTEGER)), N) = i`,
modelled as a filter over the table for integer (or null) primary keys. -/

/-- The partition index of a row:
`MOD(ABS(CAST(COALESCE(pk, 0) AS INTEGER)), n)` for an integer or null
primary-key value (the embedding covers integer-typed keys; null is
coalesced to 0). -/
def rowPartIdx (row : Row) (primary_key : String) (n : Nat) : Nat :=
  (match alookup row primary_key with
   | some (.int v) => v.natAbs
   | _ => 0) % n

/-- The rows the partition query returns. -/
def partitionScanRows (table : List Row) (primary_key : String)
    (partition_id n : Nat) : List Row :=
  table.filter (fun r => rowPartIdx r primary_key n = partition_id)

/-- The state-slot key `<ds>/<table>/partition_<i>_of_<N>`. -/
def partitionSlotKey (datasource_name table_name : String)
    (partition_id total_partitions : Nat) : String :=
  datasource_name ++ "/" ++ table_name ++ "/partition_" ++
    toString partition_id ++ "_of_" ++ toString total_partitions

/-- `HashPartitionCDCStrategy._process_partition`: the hash-strategy scan
and delete sweep on one partition slice, against that partition's slot. -/
def processPartition (st : Storage) (table_name : String) (cfg : TableConfig)
    (datasource_name : String) (table : List Row)
    (partition_id total_partitions : Nat) (now : String) :
    (List Row × List Row × List Row) × Storage :=
  let primary_key := cfg.primary_key.getD ""
  let state_key := partitionSlotKey datasource_name table_name partition_id
    total_partitions
  let r1 := retrieveState st state_key
  let previous_hashes := rowHashesOf r1.1
  let rows := partitionScanRows table primary_key partition_id total_partitions
  let scan := hashScan previous_hashes primary_key cfg.hash_columns rows
  let deleted := hashDeleted previous_hashes scan.cur primary_key
  let st2 := storeState r1.2 state_key (.hashS scan.cur now)
  ((scan.added, scan.modified, deleted), st2)

/-- `max(1, (total_rows + partition_size - 1) // partition_size)`. -/
def numPartitions (total_rows partition_size : Nat) : Nat :=
  max 1 ((total_rows + partition_size - 1) / partition_size)

/-- The partition loop: merge each partition's changes in order. -/
def partitionFold (table_name : String) (cfg : TableConfig)
    (datasource_name : String) (table : List Row) (n : Nat) (now : String)
    (acc : (List Row × List Row × List Row) × Storage) (i : Nat) :
    (List Row × List Row × List Row) × Storage :=
  let pr := processPartition acc.2 table_name cfg datasource_name table i n now
  ((acc.1.1 ++ pr.1.1, acc.1.2.1 ++ pr.1.2.1, acc.1.2.2 ++ pr.1.2.2), pr.2)

/-- `HashPartitionCDCStrategy.process`. -/
def hashPartitionProcess (st : Storage) (table_name : String)
    (cfg : TableConfig) (datasource_name : String) (table : List Row)
    (now : String) : RDict × Storage :=
  if cfg.hash_columns = [] then
    (errResult "No hash columns specified", st)
  else if ¬ pyTruthyStr cfg.primary_key then
    (errResult "No primary key specified", st)
  else
    let partition_size := cfg.partition_size.getD 10000
    let total_rows := table.length
    let n := numPartitions total_rows partition_size
    let res := (List.range n).foldl
      (partitionFold table_name cfg datasource_name table n now)
      (([], [], []), st)
    ([("status", RVal.s "success"),
      ("table_name", RVal.s table_name),
      ("method", RVal.s "hash-partition"),
      ("partitions", RVal.n n),
      ("changes", RVal.dict
        [("added", RVal.n res.1.1.length),
         ("modified", RVal.n res.1.2.1.length),
         ("deleted", RVal.n res.1.2.2.length)]),
      ("added", RVal.rows res.1.1),
      ("modified", RVal.rows res.1.2.1),
      ("deleted", RVal.rows res.1.2.2)], res.2)

/-! ## Snapshot writer (`SnapshotService`, `JsonSnapshotStrategy`,
`ParquetSnapshotStrategy`, and the factory) -/

/-- A change set as handed to the snapshot pipeline. -/
structure ChangeSet where
  added : List Row
  modified : List Row
  deleted : List Row
deriving Repr

/-- The run timestamp: its `strftime("%Y%m%d_%H%M%S")` key form and its
`isoformat()` form. -/
structure SnapTimestamp where
  key : String
  iso : String
deriving DecidableEq, Repr

/-- A snapshot artifact payload. -/
inductive SnapPayload where
  | jsonDoc (table_name datasource tsIso operation : String) (count : Nat)
      (data : List Row)
  | summaryDoc (table_name datasource tsIso fmt : String)
      (files : List String) (added modified deleted : Nat)
  | parquetDoc (data : List Row) (columns : List String) (row_count : Nat)
  | csvDoc (header : List String) (lines : List (List String))

/-- The log of `store_snapshot` calls of a run: key and payload, in call
order (all keys of one run are distinct, so the log is also the store). -/
abbrev SnapStore : Type := List (String × SnapPayload)

/-- `SnapshotStrategy._generate_filename`. -/
def generateFilename (table_name datasource_name : String)
    (ts : SnapTimestamp) (suffix ext : String) : String :=
  if suffix ≠ "" then
    "snapshots/" ++ datasource_name ++ "/" ++ table_name ++ "/" ++ ts.key ++
      "_" ++ suffix ++ "." ++ ext
  else
    "snapshots/" ++ datasource_name ++ "/" ++ table_name ++ "/" ++ ts.key ++
      "." ++ ext

/-- One bucket of `JsonSnapshotStrategy.save_snapshot`: write the JSON
document when the bucket is non-empty and record the filename. -/
def jsonBucketSave (table_name datasource_name : String) (ts : SnapTimestamp)
    (op : String) (records : List Row) (acc : List String × SnapStore) :
    List String × SnapStore :=
  if records = [] then acc
  else
    let filename := generateFilename table_name datasource_name ts op "json"
    (acc.1 ++ [filename],
     acc.2 ++ [(filename,
       SnapPayload.jsonDoc table_name datasource_name ts.iso op
         records.length records)])

/-- `JsonSnapshotStrategy.save_snapshot`: the three buckets in order, then
the summary manifest (whose `files` field lists the bucket files written
before it). -/
def jsonSaveSnapshot (table_name datasource_name : String)
    (changes : ChangeSet) (ts : SnapTimestamp) (store : SnapStore) :
    RDict × SnapStore :=
  let a1 := jsonBucketSave table_name datasource_name ts "added"
    changes.added ([], store)
  let a2 := jsonBucketSave table_name datasource_name ts "modified"
    changes.modified a1
  let a3 := jsonBucketSave table_name datasource_name ts "deleted"
    changes.deleted a2
  let summary_filename := generateFilename table_name datasource_name ts
    "summary" "json"
  let store2 := a3.2 ++ [(summary_filename,
    SnapPayload.summaryDoc table_name datasource_name ts.iso "json" a3.1
      changes.added.length changes.modified.length changes.deleted.length)]
  ([("status", RVal.s "success"),
    ("format", RVal.s "json"),
    ("files_saved", RVal.strs (a3.1 ++ [summary_filename])),
    ("total_files", RVal.n (a3.1 ++ [summary_filename]).length)], store2)

/-- The four metadata columns the parquet (and csv) writer appends. -/
def cdcMetaCols : List String :=
  ["_cdc_operation", "_cdc_timestamp", "_cdc_table", "_cdc_datasource"]

/-- The column union across a bucket, in first-appearance order
(the column order of `pd.DataFrame(records)`). -/
def unionCols (records : List Row) : List String :=
  records.foldl
    (fun acc r => acc ++ (akeys r).filter (fun c => !(acc.contains c))) []

/-- Each record extended with the four `_cdc_*` metadata values. -/
def withMeta (records : List Row) (op tsIso table_name datasource_name :
    String) : List Row :=
  records.map (fun r => r ++
    [("_cdc_operation", Value.str op),
     ("_cdc_timestamp", Value.str tsIso),
     ("_cdc_table", Value.str table_name),
     ("_cdc_datasource", Value.str datasource_name)])

/-- One bucket of `ParquetSnapshotStrategy.save_snapshot`: the dataframe
payload `{data, columns, row_count}` after the metadata columns are
added (the embedding covers buckets whose records share their columns,
where `DataFrame(records).to_dict('records')` returns the records with the
appended metadata values). -/
def parquetBucketSave (table_name datasource_name : String)
    (ts : SnapTimestamp) (op : String) (records : List Row)
    (acc : List String × SnapStore) : List String × SnapStore :=
  if records = [] then acc
  else
    let filename := generateFilename table_name datasource_name ts op "parquet"
    let data := withMeta records op ts.iso table_name datasource_name
    (acc.1 ++ [filename],
     acc.2 ++ [(filename,
       SnapPayload.parquetDoc data (unionCols records ++ cdcMetaCols)
         records.length)])

/-- `ParquetSnapshotStrategy.save_snapshot`: parquet buckets, then the
summary as JSON at the `.parquet`-to-`.json` rewritten key. -/
def parquetSaveSnapshot (table_name datasource_name : String)
    (changes : ChangeSet) (ts : SnapTimestamp) (store : SnapStore) :
    RDict × SnapStore :=
  let a1 := parquetBucketSave table_name datasource_name ts "added"
    changes.added ([], store)
  let a2 := parquetBucketSave table_name datasource_name ts "modified"
    changes.modified a1
  let a3 := parquetBucketSave table_name datasource_name ts "deleted"
    changes.deleted a2
  let summary_filename := (generateFilename table_name datasource_name ts
    "summary" "parquet").replace ".parquet" ".json"
  let store2 := a3.2 ++ [(summary_filename,
    SnapPayload.summaryDoc table_name datasource_name ts.iso "parquet" a3.1
      changes.added.length changes.modified.length changes.deleted.length)]
  ([("status", RVal.s "success"),
    ("format", RVal.s "parquet"),
    ("files_saved", RVal.strs (a3.1 ++ [summary_filename])),
    ("total_files", RVal.n (a3.1 ++ [summary_filename]).length)], store2)

/-- A CSV cell: the value's Python string form, the empty string for null
or for a column the record lacks. -/
def csvCell (r : Row) (c : String) : String :=
  match alookup r c with
  | some v => renderHashValue v
  | none => ""

/-- Modelled from the spec: `services/strategies/csv_strategy.py`
(class `CsvSnapshotStrategy`), imported by `SnapshotStrategyFactory` for
the `csv` format, is not under src/. Specification §4.3: a CSV bucket
artifact is a header row of the column union across the bucket, then one
row per record, with the metadata columns as in parquet. -/
def csvBucketSave (table_name datasource_name : String) (ts : SnapTimestamp)
    (op : String) (records : List Row) (acc : List String × SnapStore) :
    List String × SnapStore :=
  if records = [] then acc
  else
    let filename := generateFilename table_name datasource_name ts op "csv"
    let header := unionCols records ++ cdcMetaCols
    let data := withMeta records op ts.iso table_name datasource_name
    (acc.1 ++ [filename],
     acc.2 ++ [(filename,
       SnapPayload.csvDoc header (data.map (fun r => header.map (csvCell r))))])

/-- Modelled from the spec: the bucket-then-summary shape of the missing
`CsvSnapshotStrategy.save_snapshot`, parallel to the json and parquet
strategies (specification §4.3: one artifact per non-empty bucket and a
JSON summary manifest always written). -/
def csvSaveSnapshot (table_name datasource_name : String)
    (changes : ChangeSet) (ts : SnapTimestamp) (store : SnapStore) :
    RDict × SnapStore :=
  let a1 := csvBucketSave table_name datasource_name ts "added"
    changes.added ([], store)
  let a2 := csvBucketSave table_name datasource_name ts "modified"
    changes.modified a1
  let a3 := csvBucketSave table_name datasource_name ts "deleted"
    changes.deleted a2
  let summary_filename := (generateFilename table_name datasource_name ts
    "summary" "csv").replace ".csv" ".json"
  let store2 := a3.2 ++ [(summary_filename,
    SnapPayload.summaryDoc table_name datasource_name ts.iso "csv" a3.1
      changes.added.length changes.modified.length changes.deleted.length)]
  ([("status", RVal.s "success"),
    ("format", RVal.s "csv"),
    ("files_saved", RVal.strs (a3.1 ++ [summary_filename])),
    ("total_files", RVal.n (a3.1 ++ [summary_filename]).length)], store2)

/-- `SnapshotStrategyFactory.create_strategy`: the lowercased format
names with a strategy; `None` otherwise. -/
def createSnapshotStrategy (format_type : String) : Option String :=
  let f := pyLower format_type
  if f = "json" then some "json"
  else if f = "parquet" then some "parquet"
  else if f = "csv" then some "csv"
  else none

/-- Dispatch of `strategy.save_snapshot` on the created strategy. -/
def strategySaveSnapshot (strat : String) (table_name datasource_name :
    String) (changes : ChangeSet) (ts : SnapTimestamp) (store : SnapStore) :
    RDict × SnapStore :=
  if strat = "json" then
    jsonSaveSnapshot table_name datasource_name changes ts store
  else if strat = "parquet" then
    parquetSaveSnapshot table_name datasource_name changes ts store
  else
    csvSaveSnapshot table_name datasource_name changes ts store

/-- `SnapshotService._validate_changes`: a `ChangeSet` always carries the
three list fields, so validation of an orchestrator-built changes dict
always succeeds. -/
def validateChanges (_ : ChangeSet) : Bool := true

/-- `SnapshotService._has_changes`. -/
def hasChanges (changes : ChangeSet) : Bool :=
  changes.added.length > 0 || changes.modified.length > 0 ||
    changes.deleted.length > 0

/-- The `"status"` field of a result dictionary. -/
def statusOf (d : RDict) : Option String :=
  match alookup d "status" with
  | some (RVal.s v) => some v
  | _ => none

/-- `dict.update(...)`: insert each pair in order. -/
def resultUpdate (d : RDict) (kvs : List (String × RVal)) : RDict :=
  kvs.foldl (fun acc kv => ainsert acc kv.1 kv.2) d

/-- `SnapshotService.save_changes_snapshot`: resolve the format, validate,
skip when the change set is entirely empty, dispatch on the factory's
strategy, and on success add the run metadata to the result. -/
def saveChangesSnapshot (table_name datasource_name : String)
    (changes : ChangeSet) (format_type : Option String) (ts : SnapTimestamp)
    (default_format : String) (store : SnapStore) : RDict × SnapStore :=
  let fmt := format_type.getD default_format
  if ¬ validateChanges changes then
    (errResult "Invalid changes data structure", store)
  else if ¬ hasChanges changes then
    ([("status", RVal.s "skipped"),
      ("message", RVal.s "No changes to save")], store)
  else
    match createSnapshotStrategy fmt with
    | none => (errResult ("Unsupported format: " ++ fmt), store)
    | some strat =>
      let r := strategySaveSnapshot strat table_name datasource_name changes
        ts store
      if statusOf r.1 = some "success" then
        (resultUpdate r.1
          [("table_name", RVal.s table_name),
           ("datasource", RVal.s datasource_name),
           ("timestamp", RVal.s ts.iso),
           ("changes_summary", RVal.dict
             [("added", RVal.n changes.added.length),
              ("modified", RVal.n changes.modified.length),
              ("deleted", RVal.n changes.deleted.length)])], r.2)
      else r

/-! ## Run orchestrator (`CDCService`) -/

/-- `cdc_result.get(k, [])` for the row-list fields. -/
def getRowsField (d : RDict) (k : String) : List Row :=
  match alookup d k with
  | some (RVal.rows v) => v
  | _ => []

/-- `CDCService._save_snapshot`'s changes extraction: the `added`,
`modified` and `deleted` fields of the strategy result, each defaulting to
the empty list. -/
def extractChanges (cdc_result : RDict) : ChangeSet :=
  { added := getRowsField cdc_result "added",
    modified := getRowsField cdc_result "modified",
    deleted := getRowsField cdc_result "deleted" }

/-- The body of `CDCService._save_snapshot` after extraction: the
table-specific snapshot format (falling back to the global one) and the
snapshot-service call. -/
def saveSnapshotBody (table_name datasource_name : String)
    (cdc_result : RDict) (cfg : TableConfig) (global_format : String)
    (ts : SnapTimestamp) (store : SnapStore) : RDict × SnapStore :=
  let changes := extractChanges cdc_result
  let table_snapshot_format := cfg.snapshot_format.getD global_format
  saveChangesSnapshot table_name datasource_name changes
    (some table_snapshot_format) ts "json" store

/-- `CDCService._save_snapshot`'s `try/except`: an exception anywhere in
the body becomes `{"status": "error", "message": "Snapshot save failed:
..."}`. -/
def saveSnapshotGuard (body : Except String RDict) : RDict :=
  match body with
  | .ok r => r
  | .error e => errResult ("Snapshot save failed: " ++ e)

/-- The CDC methods the strategy factory accepts. -/
def supportedMethods : List String :=
  ["timestamp", "hash", "hash-partition", "hashpartition"]

/-- `CDCService.process_table`. The outcome of the strategy run and of the
snapshot helper's body are passed as `Except` values so that a raising
sub-call is representable; the surrounding control flow is the code's. -/
def processTable (table_name : String) (cfg : Option TableConfig)
    (snapshot_enabled : Bool) (strategyRun : Except String RDict)
    (snapBody : Except String RDict) : RDict :=
  match cfg with
  | none => errResult ("No configuration for table " ++ table_name)
  | some c =>
    let method := pyLower c.method
    if ¬ pyTruthyStr c.datasource then
      errResult "No datasource specified"
    else if ¬ supportedMethods.contains method then
      errResult ("Unsupported CDC method: " ++ method)
    else
      match strategyRun with
      | .error e => errResult ("Error: " ++ e)
      | .ok result =>
        if statusOf result = some "success" ∧ snapshot_enabled then
          ainsert result "snapshot" (RVal.dict (saveSnapshotGuard snapBody))
        else result

/-- `CDCService.process_all_tables`: one result entry per configured
table, keyed by table name, in configuration order. -/
def processAllTables (tables : List String)
    (cfgOf : String → Option TableConfig) (snapshot_enabled : Bool)
    (strategyRunOf : String → Except String RDict)
    (snapBodyOf : String → Except String RDict) : List (String × RDict) :=
  tables.map (fun t =>
    (t, processTable t (cfgOf t) snapshot_enabled (strategyRunOf t)
      (snapBodyOf t)))

/-! ## Lemmas: association lists -/

theorem alookup_ainsert {α : Type} (l : List (String × α)) (k q : String)
    (v : α) :
    alookup (ainsert l k v) q = if k = q then some v else alookup l q := by
  induction l with
  | nil =>
    by_cases hq : k = q <;> simp [ainsert, alookup, hq]
  | cons e rest ih =>
    obtain ⟨k1, v1⟩ := e
    by_cases h : k1 = k
    · subst h
      by_cases hq : k1 = q <;> simp [ainsert, alookup, hq]
    · by_cases hq : k1 = q
      · subst hq
        have hk : ¬ k = k1 := fun he => h he.symm
        simp [ainsert, alookup, h, hk]
      · simp [ainsert, alookup, h, hq, ih]

theorem acontains_ainsert {α : Type} (l : List (String × α)) (k q : String)
    (v : α) :
    acontains (ainsert l k v) q = (k == q || acontains l q) := by
  by_cases h : k = q <;>
    simp [acontains, alookup_ainsert, h]

theorem alookup_mem {α : Type} {l : List (String × α)} {k : String} {v : α}
    (h : alookup l k = some v) : (k, v) ∈ l := by
  induction l with
  | nil => simp [alookup] at h
  | cons e rest ih =>
    obtain ⟨k1, v1⟩ := e
    by_cases h1 : k1 = k
    · subst h1
      simp [alookup] at h
      simp [h]
    · simp [alookup, h1] at h
      simp [ih h]

/-! ## Lemmas: the hash scan -/

/-- The condition under which a scanned row lands in `added`. -/
def addedPred (previous_hashes : List (String × String)) (primary_key : String)
    (r : Row) : Bool :=
  pkString r primary_key != "" &&
    !(acontains previous_hashes (pkString r primary_key))

/-- The condition under which a scanned row lands in `modified`. -/
def modifiedPred (previous_hashes : List (String × String))
    (primary_key : String) (hash_columns : List String) (r : Row) : Bool :=
  pkString r primary_key != "" &&
    (match alookup previous_hashes (pkString r primary_key) with
     | some ph => calculateRowHash r hash_columns != ph
     | none => false)

theorem hashScan_foldl_added (previous_hashes : List (String × String))
    (primary_key : String) (hash_columns : List String) (rows : List Row)
    (acc : HashScanAcc) :
    (rows.foldl (hashScanStep previous_hashes primary_key hash_columns)
      acc).added =
    acc.added ++ rows.filter (addedPred previous_hashes primary_key) := by
  induction rows generalizing acc with
  | nil => simp
  | cons r rs ih =>
    rw [List.foldl_cons, ih, List.filter_cons]
    unfold hashScanStep addedPred
    by_cases h1 : pkString r primary_key = ""
    · simp [h1]
    · cases h2 : alookup previous_hashes (pkString r primary_key) with
      | none => simp [h1, h2, acontains]
      | some ph =>
        by_cases h3 : calculateRowHash r hash_columns = ph <;>
          simp [h1, h2, h3, acontains]

theorem hashScan_foldl_modified (previous_hashes : List (String × String))
    (primary_key : String) (hash_columns : List String) (rows : List Row)
    (acc : HashScanAcc) :
    (rows.foldl (hashScanStep previous_hashes primary_key hash_columns)
      acc).modified =
    acc.modified ++
      rows.filter (modifiedPred previous_hashes primary_key hash_columns) := by
  induction rows generalizing acc with
  | nil => simp
  | cons r rs ih =>
    rw [List.foldl_cons, ih, List.filter_cons]
    unfold hashScanStep modifiedPred
    by_cases h1 : pkString r primary_key = ""
    · simp [h1]
    · cases h2 : alookup previous_hashes (pkString r primary_key) with
      | none => simp [h1, h2]
      | some ph =>
        by_cases h3 : calculateRowHash r hash_columns = ph <;>
          simp [h1, h2, h3]

theorem hashScanStep_cur (previous_hashes : List (String × String))
    (primary_key : String) (hash_columns : List String) (acc : HashScanAcc)
    (r : Row) (q : String) :
    acontains (hashScanStep previous_hashes primary_key hash_columns
      acc r).cur q =
    (acontains acc.cur q ||
      (pkString r primary_key != "" && pkString r primary_key == q)) := by
  unfold hashScanStep
  by_cases h1 : pkString r primary_key = ""
  · simp [h1]
  · have hne : (pkString r primary_key != "") = true := bne_iff_ne.mpr h1
    have hins : ∀ c : List (String × String),
        acontains (ainsert c (pkString r primary_key)
          (calculateRowHash r hash_columns)) q =
        (acontains c q ||
          (pkString r primary_key != "" && pkString r primary_key == q)) := by
      intro c
      rw [acontains_ainsert, hne, Bool.true_and, Bool.or_comm]
    cases h2 : alookup previous_hashes (pkString r primary_key) with
    | none => simp [h1, h2, hins]
    | some ph =>
      by_cases h3 : calculateRowHash r hash_columns = ph
      · subst h3
        simp [h1, h2, hins]
      · simp [h1, h2, h3, hins]

theorem hashScan_foldl_cur (previous_hashes : List (String × String))
    (primary_key : String) (hash_columns : List String) (rows : List Row)
    (acc : HashScanAcc) (q : String) :
    acontains (rows.foldl
      (hashScanStep previous_hashes primary_key hash_columns) acc).cur q =
    (acontains acc.cur q ||
      rows.any (fun r =>
        pkString r primary_key != "" && pkString r primary_key == q)) := by
  induction rows generalizing acc with
  | nil => simp
  | cons r rs ih =>
    rw [List.foldl_cons, ih, List.any_cons, hashScanStep_cur, Bool.or_assoc]

theorem hashScan_added (previous_hashes : List (String × String))
    (primary_key : String) (hash_columns : List String) (rows : List Row) :
    (hashScan previous_hashes primary_key hash_columns rows).added =
      rows.filter (addedPred previous_hashes primary_key) := by
  unfold hashScan
  rw [hashScan_foldl_added]
  rfl

theorem hashScan_modified (previous_hashes : List (String × String))
    (primary_key : String) (hash_columns : List String) (rows : List Row) :
    (hashScan previous_hashes primary_key hash_columns rows).modified =
      rows.filter (modifiedPred previous_hashes primary_key hash_columns) := by
  unfold hashScan
  rw [hashScan_foldl_modified]
  rfl

theorem hashScan_cur (previous_hashes : List (String × String))
    (primary_key : String) (hash_columns : List String) (rows : List Row)
    (q : String) :
    acontains (hashScan previous_hashes primary_key hash_columns rows).cur q =
    rows.any (fun r =>
      pkString r primary_key != "" && pkString r primary_key == q) := by
  unfold hashScan
  rw [hashScan_foldl_cur]
  simp [acontains, alookup]

theorem any_congr {α : Type} {f g : α → Bool} {l : List α}
    (h : ∀ a ∈ l, f a = g a) : l.any f = l.any g := by
  induction l with
  | nil => rfl
  | cons a l ih =>
    simp only [List.any_cons]
    rw [h a (by simp), ih (fun b hb => h b (by simp [hb]))]

/-! ## Claim theorems -/

/-- C1: for the hash strategy with a fixed primary key and hash columns,
given a previous state and a current table whose rows have pairwise
distinct non-empty primary-key strings: `added` is exactly the rows whose
pk-string is not in the previous hashes, `modified` exactly the rows whose
pk-string is in the previous hashes with a different fingerprint (rows
with an equal fingerprint are emitted nowhere), `deleted` exactly one
record `{primary_key: <column-name>, value: pk}` per previous pk no
current row carries, and the reported counts are the sizes of those three
sets. -/
theorem hash_strategy_changes (st : Storage)
    (table_name datasource_name : String) (cfg : TableConfig)
    (rows : List Row) (now : String) (pk : String)
    (hpk : cfg.primary_key = some pk) (hpkne : pk ≠ "")
    (hhc : cfg.hash_columns ≠ [])
    (hne : ∀ r ∈ rows, pkString r pk ≠ "")
    (hnodup : (rows.map (fun r => pkString r pk)).Nodup) :
    (getRowsField (hashProcess st table_name cfg datasource_name rows
        now).1 "added" =
      rows.filter (fun r =>
        !(acontains (rowHashesOf (alookup st.store
            (datasource_name ++ "/" ++ table_name ++ "/hash_state")))
          (pkString r pk)))) ∧
    (getRowsField (hashProcess st table_name cfg datasource_name rows
        now).1 "modified" =
      rows.filter (fun r =>
        match alookup (rowHashesOf (alookup st.store
            (datasource_name ++ "/" ++ table_name ++ "/hash_state")))
            (pkString r pk) with
        | some ph => calculateRowHash r cfg.hash_columns != ph
        | none => false)) ∧
    (getRowsField (hashProcess st table_name cfg datasource_name rows
        now).1 "deleted" =
      ((rowHashesOf (alookup st.store
          (datasource_name ++ "/" ++ table_name ++ "/hash_state"))).filter
        (fun e => !(rows.any (fun r => pkString r pk == e.1)))).map
        (fun e => deletedRecord pk e.1)) ∧
    (alookup (hashProcess st table_name cfg datasource_name rows
        now).1 "changes" =
      some (RVal.dict
        [("added", RVal.n (rows.filter (fun r =>
            !(acontains (rowHashesOf (alookup st.store
                (datasource_name ++ "/" ++ table_name ++ "/hash_state")))
              (pkString r pk)))).length),
         ("modified", RVal.n (rows.filter (fun r =>
            match alookup (rowHashesOf (alookup st.store
                (datasource_name ++ "/" ++ table_name ++ "/hash_state")))
                (pkString r pk) with
            | some ph => calculateRowHash r cfg.hash_columns != ph
            | none => false)).length),
         ("deleted", RVal.n ((rowHashesOf (alookup st.store
              (datasource_name ++ "/" ++ table_name ++ "/hash_state"))).filter
            (fun e => !(rows.any (fun r => pkString r pk == e.1)))).length)])) := by
  have hg2 : pyTruthyStr cfg.primary_key = true := by
    rw [hpk]
    simp [pyTruthyStr, hpkne]
  have hgetd : cfg.primary_key.getD "" = pk := by rw [hpk]; rfl
  set prev := rowHashesOf (alookup st.store
    (datasource_name ++ "/" ++ table_name ++ "/hash_state")) with hprev
  have hadded :
      (hashScan prev pk cfg.hash_columns rows).added =
      rows.filter (fun r => !(acontains prev (pkString r pk))) := by
    rw [hashScan_added]
    apply List.filter_congr
    intro r hr
    unfold addedPred
    rw [bne_iff_ne.mpr (hne r hr), Bool.true_and]
  have hmodified :
      (hashScan prev pk cfg.hash_columns rows).modified =
      rows.filter (fun r =>
        match alookup prev (pkString r pk) with
        | some ph => calculateRowHash r cfg.hash_columns != ph
        | none => false) := by
    rw [hashScan_modified]
    apply List.filter_congr
    intro r hr
    unfold modifiedPred
    rw [bne_iff_ne.mpr (hne r hr), Bool.true_and]
  have hdeleted :
      hashDeleted prev (hashScan prev pk cfg.hash_columns rows).cur pk =
      (prev.filter
        (fun e => !(rows.any (fun r => pkString r pk == e.1)))).map
        (fun e => deletedRecord pk e.1) := by
    unfold hashDeleted
    congr 1
    apply List.filter_congr
    intro e he
    rw [hashScan_cur]
    congr 1
    apply any_congr
    intro r hr
    rw [bne_iff_ne.mpr (hne r hr), Bool.true_and]
  simp only [hashProcess, hg2, hhc, retrieveState, getRowsField, ← hprev,
    hgetd, not_true, if_false, Bool.not_true, ite_false]
  simp only [alookup]
  simp only [reduceIte, String.reduceEq]
  refine ⟨?_, ?_, ?_, ?_⟩
  · exact hadded
  · exact hmodified
  · exact hdeleted
  · rw [hadded, hmodified, hdeleted, List.length_map]

/-- Witness for C1 at a concrete input: a one-row table with primary key
`id`, empty previous state. -/
theorem hash_strategy_changes_witness :
    getRowsField (hashProcess ⟨[], [], []⟩ "t"
      { method := "hash", primary_key := some "id",
        hash_columns := ["v"] } "ds"
      [[("id", Value.str "1"), ("v", Value.str "a")]] "now").1 "added" =
    ([[("id", Value.str "1"), ("v", Value.str "a")]] : List Row).filter
      (fun r =>
        !(acontains (rowHashesOf (alookup ([] : List (String × StateVal))
            ("ds" ++ "/" ++ "t" ++ "/hash_state"))) (pkString r "id"))) :=
  (hash_strategy_changes ⟨[], [], []⟩ "t" "ds"
    { method := "hash", primary_key := some "id", hash_columns := ["v"] }
    [[("id", Value.str "1"), ("v", Value.str "a")]] "now" "id" rfl
    (by decide) (by decide) (by decide) (by decide)).1

/-- Value rendering of the amended canonical serialization: as the
specification's, except that booleans take Python's `str` forms
`"True"` / `"False"`. -/
def amendedRender : Value → String
  | .null => ""
  | .str s => s
  | .int n => toString n
  | .bool b => if b then "True" else "False"

/-- The amended canonical serialization: the specification's enumeration
order with `amendedRender` for the values. -/
def amendedCanonValues (row : Row) (selector : List String) : List String :=
  if selector = ["*"] then
    (sortedItems row).map (fun e => amendedRender e.2)
  else
    selector.map (fun col => amendedRender ((alookup row col).getD .null))

theorem renderHashValue_eq_amended (v : Value) :
    renderHashValue v = amendedRender v := by
  cases v <;> rfl

theorem hashValues_all_present (row : Row) :
    ∀ selector : List String, (∀ c ∈ selector, acontains row c) →
    selector.filterMap (fun col => (alookup row col).map renderHashValue) =
    selector.map (fun col => amendedRender ((alookup row col).getD .null)) := by
  intro selector
  induction selector with
  | nil => intro _; rfl
  | cons c cs ih =>
    intro h
    have hc : acontains row c := h c (by simp)
    obtain ⟨v, hv⟩ := Option.isSome_iff_exists.mp hc
    simp only [List.filterMap_cons, List.map_cons, hv, Option.map_some',
      Option.getD_some, renderHashValue_eq_amended]
    rw [ih (fun b hb => h b (by simp [hb]))]

set_option maxRecDepth 10000 in
/-- C3 (counterexample): the fingerprint of a row holding a boolean is not
the MD5 of the specification's canonical serialization, because the code
renders `True` with Python's `str` as `"True"`, not `"true"`. -/
theorem fingerprint_bool_counterexample :
    calculateRowHash [("b", Value.bool true)] ["b"] ≠
      specFingerprint [("b", Value.bool true)] ["b"] := by decide

/-- C3 (amended): for every row and selector, the fingerprint equals the
lowercase 32-hex MD5 of the UTF-8 bytes of the `"|"`-join of the selected
values, with the wildcard selector `["*"]` enumerating values in ascending
column-name order and an explicit selector (without `"*"`, all of whose
columns the row carries) in the order given; null renders as the empty
string, numbers and strings by their natural string form, and booleans as
`"True"` / `"False"`. -/
theorem fingerprint_canonical_amended :
    (∀ row : Row, calculateRowHash row ["*"] =
      md5HexOfString (String.intercalate "|"
        (amendedCanonValues row ["*"]))) ∧
    (∀ (row : Row) (selector : List String), "*" ∉ selector →
      (∀ c ∈ selector, acontains row c) →
      calculateRowHash row selector =
        md5HexOfString (String.intercalate "|"
          (amendedCanonValues row selector))) := by
  constructor
  · intro row
    unfold calculateRowHash hashValues amendedCanonValues
    simp [renderHashValue_eq_amended]
  · intro row selector hw hall
    have hc : selector.contains "*" = false := by
      simpa using hw
    have hne : ¬ selector = ["*"] := by
      intro he
      exact hw (he ▸ (by simp))
    unfold calculateRowHash hashValues amendedCanonValues
    rw [hc, if_neg hne]
    simp only [Bool.false_eq_true, if_false]
    rw [hashValues_all_present row selector hall]

/-- Witness for the amended C3 at a concrete input: an explicit selector
whose column the row carries. -/
theorem fingerprint_canonical_amended_witness :
    calculateRowHash [("a", Value.int 5)] ["a"] =
      md5HexOfString (String.intercalate "|"
        (amendedCanonValues [("a", Value.int 5)] ["a"])) :=
  fingerprint_canonical_amended.2 [("a", Value.int 5)] ["a"]
    (by decide) (by decide)

theorem filterMap_skip_absent (row : Row) (sel : List String) :
    sel.filterMap (fun col => (alookup row col).map renderHashValue) =
    (sel.filter (fun c => acontains row c)).filterMap
      (fun col => (alookup row col).map renderHashValue) := by
  induction sel with
  | nil => rfl
  | cons c cs ih =>
    by_cases h : acontains row c
    · obtain ⟨v, hv⟩ := Option.isSome_iff_exists.mp h
      simp [List.filterMap_cons, List.filter_cons, h, hv, ih]
    · have hnone : alookup row c = none := by
        cases hl : alookup row c with
        | none => rfl
        | some v => exact absurd (by simp [acontains, hl]) h
      simp [List.filterMap_cons, List.filter_cons, h, hnone, ih]

set_option maxRecDepth 10000 in
/-- C10: edge behaviours of the fingerprint at its public interface:
(1) a `"*"` anywhere in `hash_columns` — even alongside explicit column
names — switches to wildcard mode, ignoring the explicit names;
(2) in explicit-list mode a selector column absent from the row is
silently omitted from the serialization (contributing no field at all);
(3) hence two rows over different column sets can share a fingerprint
(shown at a concrete pair). The function is total by construction. -/
theorem fingerprint_edge_behaviours :
    (∀ (row : Row) (selector : List String), "*" ∈ selector →
      calculateRowHash row selector = calculateRowHash row ["*"]) ∧
    (∀ (row : Row) (selector : List String), "*" ∉ selector →
      calculateRowHash row selector =
        calculateRowHash row (selector.filter (fun c => acontains row c))) ∧
    (calculateRowHash [("a", Value.str "x")] ["a", "b"] =
       calculateRowHash [("b", Value.str "x")] ["a", "b"] ∧
     akeys [("a", Value.str "x")] ≠ akeys [("b", Value.str "x")]) := by
  refine ⟨?_, ?_, ?_⟩
  · intro row selector hmem
    have hc : selector.contains "*" = true := by simpa using hmem
    unfold calculateRowHash hashValues
    rw [hc]
    simp
  · intro row selector hmem
    have hc : selector.contains "*" = false := by simpa using hmem
    have hcf : (selector.filter (fun c => acontains row c)).contains "*" =
        false := by
      have : "*" ∉ selector.filter (fun c => acontains row c) := by
        intro hin
        exact hmem (List.mem_of_mem_filter hin)
      simpa using this
    unfold calculateRowHash hashValues
    rw [hc, hcf]
    simp only [Bool.false_eq_true, if_false]
    congr 1
    congr 1
    exact filterMap_skip_absent row selector
  · constructor
    · decide
    · decide

/-- Witness for C10 at concrete inputs: wildcard-anywhere mode and the
absent-column omission, at one-column rows. -/
theorem fingerprint_edge_behaviours_witness :
    calculateRowHash [("a", Value.str "x")] ["*", "a"] =
      calculateRowHash [("a", Value.str "x")] ["*"] ∧
    calculateRowHash [("a", Value.str "x")] ["a", "b"] =
      calculateRowHash [("a", Value.str "x")]
        (["a", "b"].filter (fun c =>
          acontains [("a", Value.str "x")] c)) :=
  ⟨fingerprint_edge_behaviours.1 [("a", Value.str "x")] ["*", "a"]
     (by decide),
   fingerprint_edge_behaviours.2.1 [("a", Value.str "x")] ["a", "b"]
     (by decide)⟩

/-- C2 (evaluation of the code at the divergence): the timestamp strategy
returns its rows under the `changes` key only and never populates
`added` / `modified` / `deleted`, so the orchestrator's snapshot helper —
which reads exactly those three keys — always hands the snapshot writer an
empty change set: the write is skipped and no artifact is stored, no
matter how many rows the run returned. -/
theorem timestamp_snapshot_always_skipped (st : Storage)
    (table_name : String) (cfg : TableConfig) (datasource_name : String)
    (table_rows : List Row) (batch_size : Nat) (now : String)
    (snapStore : SnapStore) (global_format : String) (ts : SnapTimestamp) :
    extractChanges (timestampProcess st table_name cfg datasource_name
        table_rows batch_size now).1 = ⟨[], [], []⟩ ∧
    statusOf (saveSnapshotBody table_name datasource_name
        (timestampProcess st table_name cfg datasource_name table_rows
          batch_size now).1 cfg global_format ts snapStore).1 =
      some "skipped" ∧
    (saveSnapshotBody table_name datasource_name
        (timestampProcess st table_name cfg datasource_name table_rows
          batch_size now).1 cfg global_format ts snapStore).2 = snapStore := by
  have hempty : extractChanges (timestampProcess st table_name cfg
      datasource_name table_rows batch_size now).1 = ⟨[], [], []⟩ := by
    by_cases h : pyTruthyStr cfg.timestamp_column <;>
      simp [timestampProcess, h, errResult, extractChanges, getRowsField,
        alookup]
  refine ⟨hempty, ?_, ?_⟩ <;>
    simp [saveSnapshotBody, hempty, saveChangesSnapshot, validateChanges,
      hasChanges, statusOf, alookup]

/-- C6: a snapshot write with an entirely empty change set stores nothing
and returns status `skipped` (whatever the requested format); otherwise
(shown for the json strategy the orchestrator defaults to) it appends
exactly one artifact per non-empty bucket plus one summary manifest, the
new store keys being `snapshots/<ds>/<table>/<ts>_<bucket>.json` for the
non-empty buckets and `summary` — all sharing the single run timestamp
prefix, with pairwise-distinct bucket suffixes — and the result status is
`success`. -/
theorem snapshot_write_keys (table_name datasource_name : String)
    (changes : ChangeSet) (format_type : Option String)
    (default_format : String) (ts : SnapTimestamp) (store : SnapStore) :
    (hasChanges changes = false →
      (saveChangesSnapshot table_name datasource_name changes format_type ts
        default_format store).1 =
        [("status", RVal.s "skipped"),
         ("message", RVal.s "No changes to save")] ∧
      (saveChangesSnapshot table_name datasource_name changes format_type ts
        default_format store).2 = store) ∧
    (hasChanges changes = true →
      ((saveChangesSnapshot table_name datasource_name changes (some "json")
          ts default_format store).2.map Prod.fst =
        store.map Prod.fst ++
          (((if changes.added = [] then [] else ["added"]) ++
            (if changes.modified = [] then [] else ["modified"]) ++
            (if changes.deleted = [] then [] else ["deleted"])) ++
            ["summary"]).map (fun op =>
              "snapshots/" ++ datasource_name ++ "/" ++ table_name ++ "/" ++
                ts.key ++ "_" ++ op ++ ".json")) ∧
      (((if changes.added = [] then [] else ["added"]) ++
        (if changes.modified = [] then [] else ["modified"]) ++
        (if changes.deleted = [] then [] else ["deleted"])) ++
        ["summary"]).Nodup ∧
      statusOf (saveChangesSnapshot table_name datasource_name changes
        (some "json") ts default_format store).1 = some "success") := by
  constructor
  · intro h
    constructor <;> simp [saveChangesSnapshot, validateChanges, h]
  · intro h
    have hj : createSnapshotStrategy "json" = some "json" := by decide
    by_cases ha : changes.added = [] <;> by_cases hm : changes.modified = []
      <;> by_cases hd : changes.deleted = []
    · exfalso
      simp [hasChanges, ha, hm, hd] at h
    all_goals
      refine ⟨?_, ?_, ?_⟩ <;>
        simp [saveChangesSnapshot, validateChanges, h, hj,
          strategySaveSnapshot, jsonSaveSnapshot, jsonBucketSave, ha, hm, hd,
          generateFilename, statusOf, resultUpdate, ainsert, alookup,
          String.append_assoc]

/-- Witness for C6 at concrete inputs: the empty change set is skipped and
a one-row `added` bucket yields a success result. -/
theorem snapshot_write_keys_witness :
    (saveChangesSnapshot "t" "ds" ⟨[], [], []⟩ (some "json")
        ⟨"20260101_120000", "2026-01-01T12:00:00"⟩ "json" []).1 =
      [("status", RVal.s "skipped"),
       ("message", RVal.s "No changes to save")] ∧
    statusOf (saveChangesSnapshot "t" "ds"
        ⟨[[("a", Value.str "x")]], [], []⟩ (some "json")
        ⟨"20260101_120000", "2026-01-01T12:00:00"⟩ "json" []).1 =
      some "success" :=
  ⟨((snapshot_write_keys "t" "ds" ⟨[], [], []⟩ (some "json") "json"
      ⟨"20260101_120000", "2026-01-01T12:00:00"⟩ []).1 (by decide)).1,
   ((snapshot_write_keys "t" "ds" ⟨[[("a", Value.str "x")]], [], []⟩
      (some "json") "json"
      ⟨"20260101_120000", "2026-01-01T12:00:00"⟩ []).2 (by decide)).2.2⟩


/-! ## Lemmas: the timestamp watermark -/

/-- One step of a running lexicographic maximum over optional strings. -/
def maxStep (acc : Option String) (s : String) : Option String :=
  match acc with
  | none => some s
  | some m => if m < s then some s else some m

/-- The lexicographic maximum of a string list, folded from a base. -/
def lexMaxFrom (base : Option String) (l : List String) : Option String :=
  l.foldl maxStep base

theorem empty_le_str (m : String) : "" ≤ m := by
  rw [String.le_iff_toList_le]
  exact List.nil_le

theorem maxStep_some (l s : String) : maxStep (some l) s = some (max l s) := by
  unfold maxStep
  by_cases h : l < s
  · simp [h, max_eq_right h.le]
  · simp [h, max_eq_left (not_lt.mp h)]

theorem batchCombine_eq_maxStep (lt m : String) :
    (if lt = "" || lt < m then some m else some lt) =
      maxStep (some lt) m := by
  rw [maxStep_some]
  by_cases h0 : lt = ""
  · subst h0
    simp [max_eq_right (empty_le_str m)]
  · by_cases h1 : lt < m
    · simp [h0, h1, max_eq_right h1.le]
    · simp [h0, h1, max_eq_left (not_lt.mp h1)]

theorem lexMaxFrom_some (l : String) (xs : List String) :
    lexMaxFrom (some l) xs = some (xs.foldl max l) := by
  induction xs generalizing l with
  | nil => rfl
  | cons x xs ih =>
    unfold lexMaxFrom at ih ⊢
    rw [List.foldl_cons, List.foldl_cons, maxStep_some, ih]

theorem lexMaxFrom_append (base : Option String) (xs ys : List String) :
    lexMaxFrom base (xs ++ ys) = lexMaxFrom (lexMaxFrom base xs) ys := by
  unfold lexMaxFrom
  rw [List.foldl_append]

theorem foldl_max_merge (a x : String) (xs : List String) :
    max a (xs.foldl max x) = xs.foldl max (max a x) := by
  induction xs generalizing x with
  | nil => rfl
  | cons y ys ih =>
    rw [List.foldl_cons, List.foldl_cons, ih, max_assoc]

theorem batchMaxStep_some (c : String) (acc : Option String) (r : Row)
    (s : String) (hts : tsStringOf r c = some s) :
    batchMaxStep c acc r = maxStep acc s := by
  unfold batchMaxStep
  rw [hts]
  cases acc with
  | none => rfl
  | some m =>
    unfold maxStep
    by_cases h : m < s <;> simp [h]

theorem batchMaxStep_none (c : String) (acc : Option String) (r : Row)
    (hts : tsStringOf r c = none) : batchMaxStep c acc r = acc := by
  unfold batchMaxStep
  rw [hts]

theorem batchMaxTs_eq (c : String) (b : List Row) :
    batchMaxTs c b = lexMaxFrom none (b.filterMap (fun r => tsStringOf r c)) := by
  suffices h : ∀ acc : Option String,
      b.foldl (batchMaxStep c) acc =
      lexMaxFrom acc (b.filterMap (fun r => tsStringOf r c)) from h none
  induction b with
  | nil => intro acc; rfl
  | cons r rs ih =>
    intro acc
    rw [List.foldl_cons, List.filterMap_cons]
    cases hts : tsStringOf r c with
    | none => rw [batchMaxStep_none c acc r hts]; exact ih acc
    | some s => rw [batchMaxStep_some c acc r s hts]; exact ih (maxStep acc s)

theorem chunksGo_flatten {α : Type} (size : Nat) (hs : 0 < size) :
    ∀ (fuel : Nat) (l : List α), l.length ≤ fuel →
      (chunksGo size fuel l).flatten = l := by
  intro fuel
  induction fuel with
  | zero =>
    intro l hl
    rw [Nat.le_zero, List.length_eq_zero] at hl
    subst hl
    rfl
  | succ f ih =>
    intro l hl
    cases l with
    | nil => rfl
    | cons x xs =>
      rw [chunksGo, List.flatten_cons, ih _ (by
        rw [List.length_drop]
        have h1 : (x :: xs).length ≤ f + 1 := hl
        omega)]
      exact List.take_append_drop size (x :: xs)

theorem chunksOf_flatten {α : Type} (size : Nat) (hs : 0 < size)
    (l : List α) : (chunksOf size l).flatten = l :=
  chunksGo_flatten size hs l.length l le_rfl

theorem chunksGo_mem_subset {α : Type} (size : Nat) :
    ∀ (fuel : Nat) (l b : List α), b ∈ chunksGo size fuel l → ∀ x ∈ b, x ∈ l := by
  intro fuel
  induction fuel with
  | zero => intro l b hb; simp [chunksGo] at hb
  | succ f ih =>
    intro l b hb x hx
    cases l with
    | nil => simp [chunksGo] at hb
    | cons y ys =>
      rw [chunksGo] at hb
      rcases List.mem_cons.mp hb with h | h
      · subst h
        exact List.take_subset size (y :: ys) hx
      · exact List.drop_subset size (y :: ys) (ih _ b h x hx)

theorem tsFold_batches (c : String) (batches : List (List Row))
    (hall : ∀ b ∈ batches, ∀ r ∈ b, (tsStringOf r c).isSome) :
    ∀ acc : Option String × List Row,
    batches.foldl (tsBatchStep c) acc =
      (lexMaxFrom acc.1 (batches.flatten.filterMap (fun r => tsStringOf r c)),
       acc.2 ++ batches.flatten) := by
  induction batches with
  | nil => intro acc; simp [lexMaxFrom]
  | cons b bs ih =>
    intro acc
    rw [List.foldl_cons, List.flatten_cons, List.filterMap_append]
    cases b with
    | nil =>
      rw [show tsBatchStep c acc [] = acc from rfl]
      simpa using ih (fun b hb => hall b (by simp [hb])) acc
    | cons r0 rest =>
      have hr0 : (tsStringOf r0 c).isSome :=
        hall (r0 :: rest) (by simp) r0 (by simp)
      obtain ⟨s0, hs0⟩ := Option.isSome_iff_exists.mp hr0
      have hcol : (batchCols (r0 :: rest)).contains c = true := by
        have hmem : c ∈ akeys r0 := by
          unfold tsStringOf at hs0
          cases hl : alookup r0 c with
          | none => rw [hl] at hs0; cases hs0
          | some v =>
            have := alookup_mem hl
            exact List.mem_map.mpr ⟨(c, v), this, rfl⟩
        unfold batchCols
        simpa using hmem
      have hbm : ∃ M, batchMaxTs c (r0 :: rest) = some M := by
        rw [batchMaxTs_eq]
        rw [List.filterMap_cons, hs0]
        rcases lexMaxFrom_some s0
          ((rest : List Row).filterMap (fun r => tsStringOf r c)) with h
        exact ⟨_, h⟩
      obtain ⟨M, hM⟩ := hbm
      have hlex : lexMaxFrom none
          ((r0 :: rest).filterMap (fun r => tsStringOf r c)) = some M := by
        rw [← batchMaxTs_eq]
        exact hM
      have hstep : tsBatchStep c acc (r0 :: rest) =
          (lexMaxFrom acc.1 ((r0 :: rest).filterMap (fun r => tsStringOf r c)),
           acc.2 ++ (r0 :: rest)) := by
        unfold tsBatchStep
        rw [if_neg (by simp)]
        simp only [hcol, if_true, hM]
        congr 1
        cases hacc : acc.1 with
        | none => exact hlex.symm
        | some lt =>
          show (if lt = "" || lt < M then some M else some lt) = _
          rw [batchCombine_eq_maxStep, maxStep_some]
          rw [List.filterMap_cons, hs0] at hlex ⊢
          rw [show lexMaxFrom (some lt)
            (s0 :: (rest : List Row).filterMap (fun r => tsStringOf r c)) =
            lexMaxFrom (maxStep (some lt) s0)
              ((rest : List Row).filterMap (fun r => tsStringOf r c)) from rfl]
          rw [show lexMaxFrom (none : Option String)
            (s0 :: (rest : List Row).filterMap (fun r => tsStringOf r c)) =
            lexMaxFrom (some s0)
              ((rest : List Row).filterMap (fun r => tsStringOf r c)) from
              rfl] at hlex
          rw [lexMaxFrom_some] at hlex
          rw [maxStep_some, lexMaxFrom_some]
          have hMv : M = ((rest : List Row).filterMap
              (fun r => tsStringOf r c)).foldl max s0 :=
            (Option.some.injEq _ _ ▸ hlex).symm
          rw [hMv, foldl_max_merge]
      rw [hstep, ih (fun b hb => hall b (by simp [hb]))
        (lexMaxFrom acc.1 ((r0 :: rest).filterMap (fun r => tsStringOf r c)),
         acc.2 ++ (r0 :: rest))]
      rw [lexMaxFrom_append]
      simp

theorem le_foldl_max (a : String) (xs : List String) :
    a ≤ xs.foldl max a := by
  induction xs generalizing a with
  | nil => exact le_rfl
  | cons x xs ih => exact le_trans (le_max_left a x) (ih (max a x))

/-- C7: for a timestamp run over a string-typed watermark column, the
reported new watermark is the lexicographic maximum of the previous
watermark and the timestamp column over all rows the scan returned; with a
previous watermark `l`, the state slot is rewritten with
`{last_timestamp: newMax, processed_at: now}` exactly when `newMax`
differs from `l` — in which case `l < newMax` — and when no row exceeds
`l` the stored state (and the write log) is left unchanged. -/
theorem timestamp_watermark (st : Storage) (table_name : String)
    (cfg : TableConfig) (datasource_name : String) (table_rows : List Row)
    (batch_size : Nat) (now : String) (c : String)
    (hc : cfg.timestamp_column = some c) (hcne : c ≠ "")
    (hbs : 0 < batch_size)
    (hall : ∀ r ∈ table_rows, (tsStringOf r c).isSome) :
    (alookup (timestampProcess st table_name cfg datasource_name table_rows
        batch_size now).1 "new_timestamp" =
      some (RVal.os (lexMaxFrom
        (lastTimestampOf (alookup st.store
          (datasource_name ++ "/" ++ table_name ++ "/timestamp_state")))
        ((if pyTruthyStr (lastTimestampOf (alookup st.store
            (datasource_name ++ "/" ++ table_name ++ "/timestamp_state")))
          then tsFilter c ((lastTimestampOf (alookup st.store
            (datasource_name ++ "/" ++ table_name ++
              "/timestamp_state"))).getD "") table_rows
          else table_rows).filterMap (fun r => tsStringOf r c))))) ∧
    (∀ l : String,
      lastTimestampOf (alookup st.store
        (datasource_name ++ "/" ++ table_name ++ "/timestamp_state")) =
        some l →
      l ≠ "" →
      (lexMaxFrom (some l) ((tsFilter c l table_rows).filterMap
          (fun r => tsStringOf r c)) = some l →
        (timestampProcess st table_name cfg datasource_name table_rows
          batch_size now).2 =
        { st with reads := st.reads ++
            [datasource_name ++ "/" ++ table_name ++ "/timestamp_state"] }) ∧
      (∀ m : String,
        lexMaxFrom (some l) ((tsFilter c l table_rows).filterMap
          (fun r => tsStringOf r c)) = some m →
        m ≠ l →
        l < m ∧
        (timestampProcess st table_name cfg datasource_name table_rows
          batch_size now).2 =
        { store := ainsert st.store
            (datasource_name ++ "/" ++ table_name ++ "/timestamp_state")
            (.tsS m now),
          reads := st.reads ++
            [datasource_name ++ "/" ++ table_name ++ "/timestamp_state"],
          writes := st.writes ++
            [datasource_name ++ "/" ++ table_name ++ "/timestamp_state"] }) ∧
      ((∀ r ∈ table_rows, ∀ s : String, tsStringOf r c = some s → ¬ l < s) →
        (timestampProcess st table_name cfg datasource_name table_rows
          batch_size now).2.store = st.store ∧
        (timestampProcess st table_name cfg datasource_name table_rows
          batch_size now).2.writes = st.writes)) := by
  have hg : pyTruthyStr cfg.timestamp_column = true := by
    rw [hc]
    simp [pyTruthyStr, hcne]
  have hgetd : cfg.timestamp_column.getD "" = c := by rw [hc]; rfl
  set key := datasource_name ++ "/" ++ table_name ++ "/timestamp_state"
    with hkey
  set last := lastTimestampOf (alookup st.store key) with hlastdef
  set scanned := (if pyTruthyStr last
    then tsFilter c (last.getD "") table_rows else table_rows) with hscan
  have hscansub : ∀ r ∈ scanned, r ∈ table_rows := by
    intro r hr
    rw [hscan] at hr
    by_cases hp : pyTruthyStr last = true
    · rw [if_pos hp] at hr
      exact List.mem_of_mem_filter hr
    · rw [if_neg hp] at hr
      exact hr
  have hsub : ∀ b ∈ chunksOf batch_size scanned, ∀ r ∈ b,
      (tsStringOf r c).isSome := by
    intro b hb r hr
    exact hall r (hscansub r (chunksGo_mem_subset batch_size _ _ b hb r hr))
  have hfold := tsFold_batches c (chunksOf batch_size scanned) hsub (last, [])
  rw [chunksOf_flatten batch_size hbs] at hfold
  have hout : timestampProcess st table_name cfg datasource_name table_rows
      batch_size now =
      (let latest := lexMaxFrom last (scanned.filterMap
        (fun r => tsStringOf r c));
       ([("status", RVal.s "success"),
         ("table_name", RVal.s table_name),
         ("method", RVal.s "timestamp"),
         ("last_timestamp", RVal.os last),
         ("new_timestamp", RVal.os latest),
         ("changes_count", RVal.n scanned.length),
         ("changes", RVal.rows scanned)],
        if pyTruthyStr latest ∧ latest ≠ last then
          storeState { st with reads := st.reads ++ [key] } key
            (.tsS (latest.getD "") now)
        else { st with reads := st.reads ++ [key] })) := by
    unfold timestampProcess
    rw [if_neg (by rw [hg]; simp)]
    rw [hgetd]
    simp only [retrieveState, ← hkey, ← hlastdef, ← hscan, hfold]
    simp
  rw [hout]
  constructor
  · simp [alookup]
  · intro l hlast hlne
    have hpt : pyTruthyStr last = true := by
      rw [hlast]
      simp [pyTruthyStr, hlne]
    have hscanl : scanned = tsFilter c l table_rows := by
      rw [hscan, if_pos hpt, hlast]
      rfl
    refine ⟨?_, ?_, ?_⟩
    · intro hmax
      rw [hscanl, hlast, hmax]
      simp
    · intro m hmax hml
      have hval : m = ((tsFilter c l table_rows).filterMap
          (fun r => tsStringOf r c)).foldl max l := by
        rw [lexMaxFrom_some] at hmax
        exact (Option.some.injEq _ _ ▸ hmax).symm
      have hlm : l < m := by
        have hle : l ≤ m := hval ▸ le_foldl_max l _
        exact lt_of_le_of_ne hle (fun he => hml he.symm)
      have hmne : m ≠ "" := by
        intro he
        rw [he] at hlm
        exact absurd (empty_le_str l) (not_le.mpr hlm)
      refine ⟨hlm, ?_⟩
      rw [hscanl, hlast, hmax]
      dsimp only
      rw [if_pos ⟨by simp [pyTruthyStr, hmne], by simpa using hml⟩]
      simp [storeState]
    · intro hnoex
      have hfilter : tsFilter c l table_rows = [] := by
        apply List.filter_eq_nil.mpr
        intro r hr
        cases hts : tsStringOf r c with
        | none => simp [hts]
        | some s =>
          simp only [hts]
          rw [decide_eq_false (hnoex r hr s hts)]
          simp
      rw [hscanl, hlast, hfilter]
      rw [show lexMaxFrom (some l) (List.filterMap
        (fun r => tsStringOf r c) []) = some l from rfl]
      dsimp only
      rw [if_neg (by simp)]
      exact ⟨rfl, rfl⟩

/-- Witness for C7 at a concrete input: previous watermark `T1`, one row
at `T2`. -/
theorem timestamp_watermark_witness :
    alookup (timestampProcess
      ⟨[("ds/t/timestamp_state", StateVal.tsS "T1" "p")], [], []⟩ "t"
      { method := "timestamp", timestamp_column := some "u" } "ds"
      [[("u", Value.str "T2")]] 2 "now").1 "new_timestamp" =
    some (RVal.os (lexMaxFrom
      (lastTimestampOf (alookup
        (Storage.mk [("ds/t/timestamp_state", StateVal.tsS "T1" "p")]
          [] []).store
        ("ds" ++ "/" ++ "t" ++ "/timestamp_state")))
      ((if pyTruthyStr (lastTimestampOf (alookup
          (Storage.mk [("ds/t/timestamp_state", StateVal.tsS "T1" "p")]
            [] []).store
          ("ds" ++ "/" ++ "t" ++ "/timestamp_state")))
        then tsFilter "u" ((lastTimestampOf (alookup
          (Storage.mk [("ds/t/timestamp_state", StateVal.tsS "T1" "p")]
            [] []).store
          ("ds" ++ "/" ++ "t" ++ "/timestamp_state"))).getD "")
          [[("u", Value.str "T2")]]
        else [[("u", Value.str "T2")]]).filterMap
          (fun r => tsStringOf r "u")))) :=
  (timestamp_watermark
    ⟨[("ds/t/timestamp_state", StateVal.tsS "T1" "p")], [], []⟩ "t"
    { method := "timestamp", timestamp_column := some "u" } "ds"
    [[("u", Value.str "T2")]] 2 "now" "u" rfl (by decide) (by decide)
    (by decide)).1

/-! ## Lemmas: decimal representations and partition slot keys -/

/-- The decimal digits of a natural number, most significant first
(the list `Nat.toDigitsCore` accumulates). -/
def decDigits (n : Nat) : List Char :=
  if h : n / 10 = 0 then [Nat.digitChar (n % 10)]
  else decDigits (n / 10) ++ [Nat.digitChar (n % 10)]
termination_by n
decreasing_by
  exact Nat.div_lt_self (Nat.pos_of_ne_zero (fun h0 => h (by simp [h0])))
    (by omega)

theorem decDigits_base {n : Nat} (h : n / 10 = 0) :
    decDigits n = [Nat.digitChar (n % 10)] := by
  rw [decDigits, dif_pos h]

theorem decDigits_step {n : Nat} (h : ¬ n / 10 = 0) :
    decDigits n = decDigits (n / 10) ++ [Nat.digitChar (n % 10)] := by
  rw [decDigits, dif_neg h]

theorem toDigitsCore_eq_decDigits :
    ∀ (fuel n : Nat) (ds : List Char), n < fuel →
    Nat.toDigitsCore 10 fuel n ds = decDigits n ++ ds := by
  intro fuel
  induction fuel with
  | zero => intro n ds h; omega
  | succ f ih =>
    intro n ds h
    by_cases h0 : n / 10 = 0
    · rw [Nat.toDigitsCore]
      rw [if_pos h0, decDigits, dif_pos h0]
      rfl
    · have hn0 : n ≠ 0 := fun he => h0 (by simp [he])
      have hdiv : n / 10 < n :=
        Nat.div_lt_self (Nat.pos_of_ne_zero hn0) (by omega)
      rw [Nat.toDigitsCore]
      rw [if_neg h0, ih (n / 10) _ (by omega), decDigits_step h0,
        List.append_assoc]
      rfl

theorem decDigits_ne_nil (n : Nat) : decDigits n ≠ [] := by
  rw [decDigits]
  by_cases h0 : n / 10 = 0
  · simp [h0]
  · simp [h0]

theorem digitChar_inj_lt :
    ∀ a : Nat, a < 10 → ∀ b : Nat, b < 10 →
      Nat.digitChar a = Nat.digitChar b → a = b := by decide

theorem decDigits_inj : ∀ n m : Nat, decDigits n = decDigits m → n = m := by
  intro n
  induction n using Nat.strong_induction_on with
  | _ n ih =>
    intro m h
    by_cases hn : n / 10 = 0 <;> by_cases hm : m / 10 = 0
    · rw [decDigits_base hn, decDigits_base hm] at h
      have hd : n % 10 = m % 10 :=
        digitChar_inj_lt _ (Nat.mod_lt n (by omega)) _
          (Nat.mod_lt m (by omega)) (List.head_eq_of_cons_eq h)
      omega
    · rw [decDigits_base hn, decDigits_step hm] at h
      rcases hdm : decDigits (m / 10) with _ | ⟨c, cs⟩
      · exact absurd hdm (decDigits_ne_nil (m / 10))
      · rw [hdm] at h
        simp at h
    · rw [decDigits_step hn, decDigits_base hm] at h
      rcases hdn : decDigits (n / 10) with _ | ⟨c, cs⟩
      · exact absurd hdn (decDigits_ne_nil (n / 10))
      · rw [hdn] at h
        simp at h
    · rw [decDigits_step hn, decDigits_step hm] at h
      obtain ⟨h1, h2⟩ := List.append_inj' h (by rfl)
      have hdiv : n / 10 < n := Nat.div_lt_self
        (Nat.pos_of_ne_zero (fun he => hn (by simp [he]))) (by omega)
      have hq : n / 10 = m / 10 := ih (n / 10) hdiv (m / 10) h1
      have hd : n % 10 = m % 10 :=
        digitChar_inj_lt _ (Nat.mod_lt n (by omega)) _
          (Nat.mod_lt m (by omega)) (List.head_eq_of_cons_eq h2)
      omega

theorem natRepr_inj {n m : Nat} (h : Nat.repr n = Nat.repr m) : n = m := by
  unfold Nat.repr Nat.toDigits at h
  have hdata := congrArg String.data h
  simp only [List.asString] at hdata
  rw [toDigitsCore_eq_decDigits (n + 1) n [] (by omega),
    toDigitsCore_eq_decDigits (m + 1) m [] (by omega)] at hdata
  simp only [List.append_nil] at hdata
  exact decDigits_inj n m hdata

theorem natToString_inj {n m : Nat} (h : toString n = toString m) : n = m :=
  natRepr_inj h

theorem string_append_right_inj {a b s : String} (h : a ++ s = b ++ s) :
    a = b := by
  have hdata := congrArg String.data h
  rw [String.data_append, String.data_append] at hdata
  have := List.append_cancel_right hdata
  cases a
  cases b
  exact congrArg String.mk (by simpa using this)

theorem string_append_left_inj {a b p : String} (h : p ++ a = p ++ b) :
    a = b := by
  have hdata := congrArg String.data h
  rw [String.data_append, String.data_append] at hdata
  have := List.append_cancel_left hdata
  cases a
  cases b
  exact congrArg String.mk (by simpa using this)

theorem partitionSlotKey_inj (datasource_name table_name : String)
    (n : Nat) {i j : Nat}
    (h : partitionSlotKey datasource_name table_name i n =
         partitionSlotKey datasource_name table_name j n) : i = j := by
  unfold partitionSlotKey at h
  have h1 : toString i ++ ("_of_" ++ toString n) =
      toString j ++ ("_of_" ++ toString n) := by
    have h2 := congrArg String.data h
    simp only [String.data_append, List.append_assoc] at h2
    have h3 := List.append_cancel_left h2
    have h4 := List.append_cancel_left h3
    have h5 := List.append_cancel_left h4
    have h6 := List.append_cancel_left h5
    have hd : ((toString i ++ ("_of_" ++ toString n)) : String).data =
        ((toString j ++ ("_of_" ++ toString n)) : String).data := by
      simp only [String.data_append, List.append_assoc]
      exact h6
    cases he1 : (toString i ++ ("_of_" ++ toString n) : String)
    cases he2 : (toString j ++ ("_of_" ++ toString n) : String)
    rw [he1, he2] at hd
    simp at hd
    simp [hd]
  have h7 : (toString i : String).data ++ ("_of_" ++ toString n).data =
      (toString j : String).data ++ ("_of_" ++ toString n).data := by
    have := congrArg String.data h1
    rwa [String.data_append, String.data_append] at this
  have h8 := List.append_cancel_right h7
  apply natToString_inj (n := i) (m := j)
  cases hti : (toString i : String)
  cases htj : (toString j : String)
  rw [hti, htj] at h8
  simp at h8
  simp [h8]

/-! ## Lemmas: the hash-partition fold -/

/-- The changes one partition produces when its slot is read from a fixed
store value `store0`. -/
def partitionLocalChanges (store0 : List (String × StateVal))
    (table_name : String) (cfg : TableConfig) (datasource_name : String)
    (table : List Row) (i n : Nat) : List Row × List Row × List Row :=
  let primary_key := cfg.primary_key.getD ""
  let previous_hashes := rowHashesOf (alookup store0
    (partitionSlotKey datasource_name table_name i n))
  let rows := partitionScanRows table primary_key i n
  let scan := hashScan previous_hashes primary_key cfg.hash_columns rows
  (scan.added, scan.modified, hashDeleted previous_hashes scan.cur primary_key)

theorem processPartition_eq (st : Storage) (table_name : String)
    (cfg : TableConfig) (datasource_name : String) (table : List Row)
    (partition_id total_partitions : Nat) (now : String) :
    processPartition st table_name cfg datasource_name table partition_id
      total_partitions now =
    (partitionLocalChanges st.store table_name cfg datasource_name table
       partition_id total_partitions,
     { store := ainsert st.store
         (partitionSlotKey datasource_name table_name partition_id
           total_partitions)
         (.hashS (hashScan
           (rowHashesOf (alookup st.store
             (partitionSlotKey datasource_name table_name partition_id
               total_partitions)))
           (cfg.primary_key.getD "") cfg.hash_columns
           (partitionScanRows table (cfg.primary_key.getD "") partition_id
             total_partitions)).cur now),
       reads := st.reads ++
         [partitionSlotKey datasource_name table_name partition_id
           total_partitions],
       writes := st.writes ++
         [partitionSlotKey datasource_name table_name partition_id
           total_partitions] }) := rfl

theorem partitionFold_logs (table_name : String) (cfg : TableConfig)
    (datasource_name : String) (table : List Row) (n : Nat) (now : String) :
    ∀ (is : List Nat) (acc : (List Row × List Row × List Row) × Storage),
    (is.foldl (partitionFold table_name cfg datasource_name table n now)
      acc).2.reads =
      acc.2.reads ++ is.map
        (fun i => partitionSlotKey datasource_name table_name i n) ∧
    (is.foldl (partitionFold table_name cfg datasource_name table n now)
      acc).2.writes =
      acc.2.writes ++ is.map
        (fun i => partitionSlotKey datasource_name table_name i n) := by
  intro is
  induction is with
  | nil => intro acc; simp
  | cons i is ih =>
    intro acc
    rw [List.foldl_cons, List.map_cons]
    have h := ih (partitionFold table_name cfg datasource_name table n now
      acc i)
    unfold partitionFold at h ⊢
    rw [processPartition_eq] at h ⊢
    constructor
    · rw [h.1]
      simp
    · rw [h.2]
      simp

theorem partitionFold_changes (table_name : String) (cfg : TableConfig)
    (datasource_name : String) (table : List Row) (n : Nat) (now : String)
    (store0 : List (String × StateVal)) :
    ∀ (is : List Nat),
    is.Pairwise (fun a b => partitionSlotKey datasource_name table_name a n ≠
      partitionSlotKey datasource_name table_name b n) →
    ∀ acc : (List Row × List Row × List Row) × Storage,
    (∀ i ∈ is, alookup acc.2.store
        (partitionSlotKey datasource_name table_name i n) =
      alookup store0 (partitionSlotKey datasource_name table_name i n)) →
    ((is.foldl (partitionFold table_name cfg datasource_name table n now)
        acc).1 =
      (acc.1.1 ++ (is.map (fun i => (partitionLocalChanges store0 table_name
        cfg datasource_name table i n).1)).flatten,
       acc.1.2.1 ++ (is.map (fun i => (partitionLocalChanges store0
        table_name cfg datasource_name table i n).2.1)).flatten,
       acc.1.2.2 ++ (is.map (fun i => (partitionLocalChanges store0
        table_name cfg datasource_name table i n).2.2)).flatten)) ∧
    (∀ q, (∀ i ∈ is, q ≠ partitionSlotKey datasource_name table_name i n) →
      alookup (is.foldl (partitionFold table_name cfg datasource_name table
        n now) acc).2.store q = alookup acc.2.store q) := by
  intro is
  induction is with
  | nil =>
    intro _ acc _
    constructor
    · simp
    · intro q _
      rfl
  | cons i is ih =>
    intro hpw acc hagree
    have hpw' : is.Pairwise (fun a b =>
        partitionSlotKey datasource_name table_name a n ≠
        partitionSlotKey datasource_name table_name b n) :=
      List.Pairwise.of_cons hpw
    have hhead : ∀ j ∈ is,
        partitionSlotKey datasource_name table_name i n ≠
        partitionSlotKey datasource_name table_name j n :=
      fun j hj => (List.pairwise_cons.mp hpw).1 j hj
    set acc1 := partitionFold table_name cfg datasource_name table n now
      acc i with hacc1
    have hlocal : (partitionLocalChanges acc.2.store table_name cfg
        datasource_name table i n) = (partitionLocalChanges store0 table_name
        cfg datasource_name table i n) := by
      unfold partitionLocalChanges
      rw [hagree i (by simp)]
    have hacc1st : acc1.2.store = ainsert acc.2.store
        (partitionSlotKey datasource_name table_name i n)
        (.hashS (hashScan
          (rowHashesOf (alookup acc.2.store
            (partitionSlotKey datasource_name table_name i n)))
          (cfg.primary_key.getD "") cfg.hash_columns
          (partitionScanRows table (cfg.primary_key.getD "") i n)).cur
          now) := by
      rw [hacc1]
      unfold partitionFold
      rw [processPartition_eq]
    have hagree' : ∀ j ∈ is, alookup acc1.2.store
        (partitionSlotKey datasource_name table_name j n) =
        alookup store0 (partitionSlotKey datasource_name table_name j n) := by
      intro j hj
      rw [hacc1st, alookup_ainsert,
        if_neg (hhead j hj), hagree j (by simp [hj])]
    have hih := ih hpw' acc1 hagree'
    constructor
    · rw [List.foldl_cons, ← hacc1, hih.1]
      have hacc1ch : acc1.1 =
          (acc.1.1 ++ (partitionLocalChanges store0 table_name cfg
            datasource_name table i n).1,
           acc.1.2.1 ++ (partitionLocalChanges store0 table_name cfg
            datasource_name table i n).2.1,
           acc.1.2.2 ++ (partitionLocalChanges store0 table_name cfg
            datasource_name table i n).2.2) := by
        rw [hacc1]
        unfold partitionFold
        rw [processPartition_eq, ← hlocal]
      rw [hacc1ch]
      simp
    · intro q hq
      rw [List.foldl_cons, ← hacc1,
        hih.2 q (fun j hj => hq j (by simp [hj])), hacc1st, alookup_ainsert,
        if_neg (fun he => hq i (by simp) he.symm)]

theorem rangeSlotKeys_pairwise (datasource_name table_name : String)
    (n : Nat) :
    (List.range n).Pairwise (fun a b =>
      partitionSlotKey datasource_name table_name a n ≠
      partitionSlotKey datasource_name table_name b n) := by
  refine List.Pairwise.imp ?_ (List.pairwise_lt_range n)
  intro a b hab he
  exact absurd (partitionSlotKey_inj datasource_name table_name n he)
    (Nat.ne_of_lt hab)

set_option maxRecDepth 40000 in
/-- C5 (counterexample): a hash-partition run after a partition-count
change from `M = 2` to `N = 3` (three rows, `partition_size = 1`), with a
stale slot `partition_0_of_2` still holding the previous pk `"9"`: the
run's `deleted` bucket is empty — the previous pk does not reappear as
deleted, contrary to the claim's final clause. -/
theorem partition_nchange_counterexample :
    getRowsField (hashPartitionProcess
      ⟨[("ds/t/partition_0_of_2", StateVal.hashS [("9", "oldfp")] "t0")],
        [], []⟩
      "t" { method := "hash-partition", primary_key := some "id",
            hash_columns := ["*"], partition_size := some 1 }
      "ds" [[("id", Value.int 1)], [("id", Value.int 2)],
            [("id", Value.int 3)]] "now").1 "deleted" = [] ∧
    acontains (rowHashesOf (alookup
      [("ds/t/partition_0_of_2", StateVal.hashS [("9", "oldfp")] "t0")]
      "ds/t/partition_0_of_2")) "9" = true ∧
    numPartitions 3 1 = 3 := by
  refine ⟨by decide, by decide, by decide⟩

/-- C5 (amended): for a hash-partition run with positive `partition_size`,
the partition count is `N = max(1, ceil(total / partition_size))`
(characterized by `total ≤ N * partition_size`, minimality, and `N = 1`
for an empty table); the run reads and writes exactly the state slots
`<ds>/<table>/partition_<i>_of_<N>` for `i = 0..N-1`, so no slot of a
different partition count `M ≠ N` is consulted; and when the slots for
this `N` have never been written, every current row is re-reported as
`added` while `deleted` is empty — previous pks in stale slots do not
reappear. -/
theorem hash_partition_slots_amended (st : Storage) (table_name : String)
    (cfg : TableConfig) (datasource_name : String) (table : List Row)
    (now : String) (pk : String) (ps : Nat)
    (hpk : cfg.primary_key = some pk) (hpkne : pk ≠ "")
    (hhc : cfg.hash_columns ≠ [])
    (hps : cfg.partition_size = some ps) (hps0 : 0 < ps) :
    (alookup (hashPartitionProcess st table_name cfg datasource_name table
        now).1 "partitions" =
      some (RVal.n (numPartitions table.length ps)) ∧
     table.length ≤ numPartitions table.length ps * ps ∧
     (0 < table.length →
       (numPartitions table.length ps - 1) * ps < table.length) ∧
     (table.length = 0 → numPartitions table.length ps = 1)) ∧
    ((hashPartitionProcess st table_name cfg datasource_name table
        now).2.reads =
      st.reads ++ (List.range (numPartitions table.length ps)).map
        (fun i => partitionSlotKey datasource_name table_name i
          (numPartitions table.length ps)) ∧
     (hashPartitionProcess st table_name cfg datasource_name table
        now).2.writes =
      st.writes ++ (List.range (numPartitions table.length ps)).map
        (fun i => partitionSlotKey datasource_name table_name i
          (numPartitions table.length ps))) ∧
    ((∀ i < numPartitions table.length ps,
        alookup st.store (partitionSlotKey datasource_name table_name i
          (numPartitions table.length ps)) = none) →
      getRowsField (hashPartitionProcess st table_name cfg datasource_name
        table now).1 "added" =
        ((List.range (numPartitions table.length ps)).map (fun i =>
          (partitionScanRows table pk i (numPartitions table.length
            ps)).filter (fun r => pkString r pk != ""))).flatten ∧
      getRowsField (hashPartitionProcess st table_name cfg datasource_name
        table now).1 "deleted" = []) := by
  have hg2 : pyTruthyStr cfg.primary_key = true := by
    rw [hpk]
    simp [pyTruthyStr, hpkne]
  have hgetd : cfg.primary_key.getD "" = pk := by rw [hpk]; rfl
  have hpsd : cfg.partition_size.getD 10000 = ps := by rw [hps]; rfl
  set n := numPartitions table.length ps with hn
  have hfold := partitionFold_changes table_name cfg datasource_name table
    n now st.store (List.range n)
    (rangeSlotKeys_pairwise datasource_name table_name n)
    (([], [], []), st) (fun i _ => rfl)
  have hlogs := partitionFold_logs table_name cfg datasource_name table n
    now (List.range n) (([], [], []), st)
  have hout : hashPartitionProcess st table_name cfg datasource_name table
      now =
      ([("status", RVal.s "success"),
        ("table_name", RVal.s table_name),
        ("method", RVal.s "hash-partition"),
        ("partitions", RVal.n n),
        ("changes", RVal.dict
          [("added", RVal.n ((List.range n).foldl (partitionFold table_name
             cfg datasource_name table n now) (([], [], []), st)).1.1.length),
           ("modified", RVal.n ((List.range n).foldl (partitionFold
             table_name cfg datasource_name table n now)
             (([], [], []), st)).1.2.1.length),
           ("deleted", RVal.n ((List.range n).foldl (partitionFold
             table_name cfg datasource_name table n now)
             (([], [], []), st)).1.2.2.length)]),
        ("added", RVal.rows ((List.range n).foldl (partitionFold table_name
          cfg datasource_name table n now) (([], [], []), st)).1.1),
        ("modified", RVal.rows ((List.range n).foldl (partitionFold
          table_name cfg datasource_name table n now)
          (([], [], []), st)).1.2.1),
        ("deleted", RVal.rows ((List.range n).foldl (partitionFold
          table_name cfg datasource_name table n now)
          (([], [], []), st)).1.2.2)],
       ((List.range n).foldl (partitionFold table_name cfg datasource_name
         table n now) (([], [], []), st)).2) := by
    unfold hashPartitionProcess
    rw [if_neg hhc]
    rw [if_neg (by rw [hg2]; simp)]
    rw [hpsd]
  set Q := (table.length + ps - 1) / ps with hQ
  have hdm := Nat.div_add_mod (table.length + ps - 1) ps
  rw [← hQ] at hdm
  have hmlt := Nat.mod_lt (table.length + ps - 1) hps0
  have hcomm : Q * ps = ps * Q := Nat.mul_comm _ _
  refine ⟨⟨?_, ?_, ?_, ?_⟩, ⟨?_, ?_⟩, ?_⟩
  · rw [hout]
    simp [alookup]
  · rcases max_choice 1 Q with h | h <;>
      rw [hn, numPartitions, ← hQ, h]
    · have hq1 : Q ≤ 1 := max_eq_left_iff.mp h
      rcases Nat.le_one_iff_eq_zero_or_eq_one.mp hq1 with h0 | h1
      · rw [h0] at hdm
        simp at hdm
        omega
      · rw [h1] at hdm
        simp at hdm
        omega
    · rw [hcomm]
      omega
  · intro hpos
    rcases max_choice 1 Q with h | h <;>
      rw [hn, numPartitions, ← hQ, h]
    · simpa using hpos
    · have h1 : 1 ≤ Q := by
        by_contra hq
        push_neg at hq
        rw [Nat.lt_one_iff.mp hq] at h
        simp at h
      obtain ⟨Q1, hQ1⟩ : ∃ k, Q = k + 1 := ⟨Q - 1, by omega⟩
      rw [hQ1] at hdm ⊢
      have hexp : ps * (Q1 + 1) = ps * Q1 + ps := by ring
      rw [hexp] at hdm
      have hc2 : (Q1 + 1 - 1) * ps = ps * Q1 := by
        rw [Nat.add_sub_cancel]
        ring
      rw [hc2]
      omega
  · intro h0
    rw [hn, numPartitions, h0]
    have hz : (0 + ps - 1) / ps = 0 := Nat.div_eq_of_lt (by omega)
    rw [hz]
    simp
  · rw [hout, hlogs.1]
  · rw [hout, hlogs.2]
  · intro hfresh
    have hlocal : ∀ i ∈ List.range n,
        (partitionLocalChanges st.store table_name cfg datasource_name
          table i n) =
        ((partitionScanRows table pk i n).filter
          (fun r => pkString r pk != ""), [], []) := by
      intro i hi
      unfold partitionLocalChanges
      rw [hfresh i (List.mem_range.mp hi)]
      rw [hgetd]
      rw [show rowHashesOf none = [] from rfl]
      have ea : (partitionScanRows table pk i n).filter (addedPred [] pk) =
          (partitionScanRows table pk i n).filter
            (fun r => pkString r pk != "") := by
        apply List.filter_congr
        intro r _
        unfold addedPred
        simp [acontains, alookup]
      have em : (partitionScanRows table pk i n).filter
          (modifiedPred [] pk cfg.hash_columns) = [] := by
        rw [show (partitionScanRows table pk i n).filter
          (modifiedPred [] pk cfg.hash_columns) =
          (partitionScanRows table pk i n).filter (fun _ => false) from
          List.filter_congr (fun r _ => by
            unfold modifiedPred
            simp [alookup])]
        simp
      dsimp only
      rw [hashScan_added, hashScan_modified, ea, em]
      rfl
    constructor
    · rw [hout]
      simp only [getRowsField, alookup]
      simp only [String.reduceEq, reduceIte]
      rw [hfold.1]
      simp only [List.nil_append]
      congr 1
      apply List.map_congr_left
      intro i hi
      rw [hlocal i hi]
    · rw [hout]
      simp only [getRowsField, alookup]
      simp only [String.reduceEq, reduceIte]
      rw [hfold.1]
      simp only [List.nil_append]
      have : (List.range n).map (fun i => (partitionLocalChanges st.store
          table_name cfg datasource_name table i n).2.2) =
          (List.range n).map (fun _ => ([] : List Row)) := by
        apply List.map_congr_left
        intro i hi
        rw [hlocal i hi]
      rw [this]
      simp

/-- Witness for the amended C5 at a concrete input: a one-row table with
`partition_size = 2`. -/
theorem hash_partition_slots_amended_witness :
    alookup (hashPartitionProcess ⟨[], [], []⟩ "t"
      { method := "hash-partition", primary_key := some "id",
        hash_columns := ["v"], partition_size := some 2 } "ds"
      [[("id", Value.int 1), ("v", Value.str "a")]] "now").1 "partitions" =
    some (RVal.n (numPartitions
      ([[("id", Value.int 1), ("v", Value.str "a")]] : List Row).length 2)) :=
  ((hash_partition_slots_amended ⟨[], [], []⟩ "t"
    { method := "hash-partition", primary_key := some "id",
      hash_columns := ["v"], partition_size := some 2 } "ds"
    [[("id", Value.int 1), ("v", Value.str "a")]] "now" "id" 2 rfl
    (by decide) (by decide) rfl (by decide)).1).1

/-! ## Lemmas: bucket disjointness -/

/-- The primary-key strings of a list of emitted row images. -/
def rowPks (rows : List Row) (primary_key : String) : List String :=
  rows.map (fun r => pkString r primary_key)

/-- The `value` field of a deleted record. -/
def delValue (r : Row) : String :=
  match alookup r "value" with
  | some (.str v) => v
  | _ => ""

/-- The primary-key values of a list of deleted records. -/
def delPks (recs : List Row) : List String := recs.map delValue

/-- No primary-key value appears in more than one of the three buckets. -/
def bucketsDisjoint (added modified deleted : List Row)
    (primary_key : String) : Prop :=
  (∀ p, p ∈ rowPks added primary_key →
    p ∉ rowPks modified primary_key ∧ p ∉ delPks deleted) ∧
  (∀ p, p ∈ rowPks modified primary_key → p ∉ delPks deleted)

theorem delValue_deletedRecord (primary_key v : String) :
    delValue (deletedRecord primary_key v) = v := by
  simp [delValue, deletedRecord, alookup]

theorem acontains_of_mem {α : Type} {l : List (String × α)} {k : String}
    {v : α} (h : (k, v) ∈ l) : acontains l k = true := by
  induction l with
  | nil => cases h
  | cons e rest ih =>
    obtain ⟨k1, v1⟩ := e
    by_cases hk : k1 = k
    · simp [acontains, alookup, hk]
    · rcases List.mem_cons.mp h with he | he
      · cases he
        exact absurd rfl hk
      · simpa [acontains, alookup, hk] using ih he

theorem mem_hashScan_added {previous_hashes : List (String × String)}
    {primary_key : String} {hash_columns : List String} {rows : List Row}
    {r : Row}
    (h : r ∈ (hashScan previous_hashes primary_key hash_columns rows).added) :
    r ∈ rows ∧ pkString r primary_key ≠ "" ∧
      acontains previous_hashes (pkString r primary_key) = false := by
  rw [hashScan_added] at h
  have hm := List.mem_of_mem_filter h
  have hp := List.of_mem_filter h
  unfold addedPred at hp
  simp only [Bool.and_eq_true, bne_iff_ne, Bool.not_eq_true'] at hp
  exact ⟨hm, hp.1, hp.2⟩

theorem mem_hashScan_modified {previous_hashes : List (String × String)}
    {primary_key : String} {hash_columns : List String} {rows : List Row}
    {r : Row}
    (h : r ∈ (hashScan previous_hashes primary_key hash_columns
      rows).modified) :
    r ∈ rows ∧ pkString r primary_key ≠ "" ∧
      acontains previous_hashes (pkString r primary_key) = true := by
  rw [hashScan_modified] at h
  have hm := List.mem_of_mem_filter h
  have hp := List.of_mem_filter h
  unfold modifiedPred at hp
  simp only [Bool.and_eq_true, bne_iff_ne] at hp
  refine ⟨hm, hp.1, ?_⟩
  rcases hl : alookup previous_hashes (pkString r primary_key) with _ | ph
  · rw [hl] at hp
    simp at hp
  · simp [acontains, hl]

theorem mem_hashDeleted {previous_hashes cur : List (String × String)}
    {primary_key : String} {p : String}
    (h : p ∈ delPks (hashDeleted previous_hashes cur primary_key)) :
    acontains previous_hashes p = true ∧ acontains cur p = false := by
  unfold delPks hashDeleted at h
  rw [List.map_map] at h
  obtain ⟨e, he, hev⟩ := List.mem_map.mp h
  have hmem := List.mem_of_mem_filter he
  have hfp := List.of_mem_filter he
  simp only [Bool.not_eq_true'] at hfp
  have hv : delValue (deletedRecord primary_key e.1) = e.1 :=
    delValue_deletedRecord primary_key e.1
  have hpe : p = e.1 := by
    rw [← hev]
    exact hv.symm
  subst hpe
  exact ⟨acontains_of_mem (by rwa [← Prod.mk.eta (p := e)] at hmem), hfp⟩

theorem hashScan_cur_of_mem (previous_hashes : List (String × String))
    (primary_key : String) (hash_columns : List String) (rows : List Row)
    (r : Row) (hr : r ∈ rows) (hne : pkString r primary_key ≠ "") :
    acontains (hashScan previous_hashes primary_key hash_columns rows).cur
      (pkString r primary_key) = true := by
  rw [hashScan_cur]
  rw [List.any_eq_true]
  exact ⟨r, hr, by simp [hne]⟩

theorem hashProcess_eq (st : Storage) (table_name : String)
    (cfg : TableConfig) (datasource_name : String) (table_rows : List Row)
    (now : String) (hhc : cfg.hash_columns ≠ [])
    (hg2 : pyTruthyStr cfg.primary_key = true) :
    hashProcess st table_name cfg datasource_name table_rows now =
    ([("status", RVal.s "success"),
      ("table_name", RVal.s table_name),
      ("method", RVal.s "hash"),
      ("changes", RVal.dict
        [("added", RVal.n (hashScan
            (rowHashesOf (alookup st.store
              (datasource_name ++ "/" ++ table_name ++ "/hash_state")))
            (cfg.primary_key.getD "") cfg.hash_columns
            table_rows).added.length),
         ("modified", RVal.n (hashScan
            (rowHashesOf (alookup st.store
              (datasource_name ++ "/" ++ table_name ++ "/hash_state")))
            (cfg.primary_key.getD "") cfg.hash_columns
            table_rows).modified.length),
         ("deleted", RVal.n (hashDeleted
            (rowHashesOf (alookup st.store
              (datasource_name ++ "/" ++ table_name ++ "/hash_state")))
            (hashScan (rowHashesOf (alookup st.store
              (datasource_name ++ "/" ++ table_name ++ "/hash_state")))
              (cfg.primary_key.getD "") cfg.hash_columns table_rows).cur
            (cfg.primary_key.getD "")).length)]),
      ("added", RVal.rows (hashScan
        (rowHashesOf (alookup st.store
          (datasource_name ++ "/" ++ table_name ++ "/hash_state")))
        (cfg.primary_key.getD "") cfg.hash_columns table_rows).added),
      ("modified", RVal.rows (hashScan
        (rowHashesOf (alookup st.store
          (datasource_name ++ "/" ++ table_name ++ "/hash_state")))
        (cfg.primary_key.getD "") cfg.hash_columns table_rows).modified),
      ("deleted", RVal.rows (hashDeleted
        (rowHashesOf (alookup st.store
          (datasource_name ++ "/" ++ table_name ++ "/hash_state")))
        (hashScan (rowHashesOf (alookup st.store
          (datasource_name ++ "/" ++ table_name ++ "/hash_state")))
          (cfg.primary_key.getD "") cfg.hash_columns table_rows).cur
        (cfg.primary_key.getD "")))],
     storeState { st with reads := st.reads ++
         [datasource_name ++ "/" ++ table_name ++ "/hash_state"] }
       (datasource_name ++ "/" ++ table_name ++ "/hash_state")
       (.hashS (hashScan (rowHashesOf (alookup st.store
         (datasource_name ++ "/" ++ table_name ++ "/hash_state")))
         (cfg.primary_key.getD "") cfg.hash_columns table_rows).cur now)) := by
  unfold hashProcess
  rw [if_neg hhc]
  rw [if_neg (by rw [hg2]; simp)]
  rfl

theorem hashPartitionProcess_eq (st : Storage) (table_name : String)
    (cfg : TableConfig) (datasource_name : String) (table : List Row)
    (now : String) (hhc : cfg.hash_columns ≠ [])
    (hg2 : pyTruthyStr cfg.primary_key = true) :
    hashPartitionProcess st table_name cfg datasource_name table now =
    ([("status", RVal.s "success"),
      ("table_name", RVal.s table_name),
      ("method", RVal.s "hash-partition"),
      ("partitions", RVal.n (numPartitions table.length
        (cfg.partition_size.getD 10000))),
      ("changes", RVal.dict
        [("added", RVal.n ((List.range (numPartitions table.length
            (cfg.partition_size.getD 10000))).foldl (partitionFold
            table_name cfg datasource_name table (numPartitions table.length
            (cfg.partition_size.getD 10000)) now)
            (([], [], []), st)).1.1.length),
         ("modified", RVal.n ((List.range (numPartitions table.length
            (cfg.partition_size.getD 10000))).foldl (partitionFold
            table_name cfg datasource_name table (numPartitions table.length
            (cfg.partition_size.getD 10000)) now)
            (([], [], []), st)).1.2.1.length),
         ("deleted", RVal.n ((List.range (numPartitions table.length
            (cfg.partition_size.getD 10000))).foldl (partitionFold
            table_name cfg datasource_name table (numPartitions table.length
            (cfg.partition_size.getD 10000)) now)
            (([], [], []), st)).1.2.2.length)]),
      ("added", RVal.rows ((List.range (numPartitions table.length
        (cfg.partition_size.getD 10000))).foldl (partitionFold table_name
        cfg datasource_name table (numPartitions table.length
        (cfg.partition_size.getD 10000)) now) (([], [], []), st)).1.1),
      ("modified", RVal.rows ((List.range (numPartitions table.length
        (cfg.partition_size.getD 10000))).foldl (partitionFold table_name
        cfg datasource_name table (numPartitions table.length
        (cfg.partition_size.getD 10000)) now) (([], [], []), st)).1.2.1),
      ("deleted", RVal.rows ((List.range (numPartitions table.length
        (cfg.partition_size.getD 10000))).foldl (partitionFold table_name
        cfg datasource_name table (numPartitions table.length
        (cfg.partition_size.getD 10000)) now) (([], [], []), st)).1.2.2)],
     ((List.range (numPartitions table.length
       (cfg.partition_size.getD 10000))).foldl (partitionFold table_name
       cfg datasource_name table (numPartitions table.length
       (cfg.partition_size.getD 10000)) now) (([], [], []), st)).2) := by
  unfold hashPartitionProcess
  rw [if_neg hhc]
  rw [if_neg (by rw [hg2]; simp)]

theorem mem_partitionScanRows {table : List Row} {primary_key : String}
    {i n : Nat} {r : Row} (h : r ∈ partitionScanRows table primary_key i n) :
    r ∈ table ∧ rowPartIdx r primary_key n = i := by
  unfold partitionScanRows at h
  refine ⟨List.mem_of_mem_filter h, ?_⟩
  have := List.of_mem_filter h
  simpa using this

theorem mem_partitionScanRows_intro {table : List Row} {primary_key : String}
    {i n : Nat} {r : Row} (hr : r ∈ table)
    (hp : rowPartIdx r primary_key n = i) :
    r ∈ partitionScanRows table primary_key i n := by
  unfold partitionScanRows
  exact List.mem_filter.mpr ⟨hr, by simpa using hp⟩

theorem mem_local_added {store0 : List (String × StateVal)}
    {table_name : String} {cfg : TableConfig} {datasource_name : String}
    {table : List Row} {i n : Nat} {r : Row}
    (h : r ∈ (partitionLocalChanges store0 table_name cfg datasource_name
      table i n).1) :
    r ∈ table ∧ rowPartIdx r (cfg.primary_key.getD "") n = i ∧
    pkString r (cfg.primary_key.getD "") ≠ "" ∧
    acontains (rowHashesOf (alookup store0
      (partitionSlotKey datasource_name table_name i n)))
      (pkString r (cfg.primary_key.getD "")) = false := by
  unfold partitionLocalChanges at h
  obtain ⟨hm, hne, hcon⟩ := mem_hashScan_added h
  obtain ⟨ht, hpart⟩ := mem_partitionScanRows hm
  exact ⟨ht, hpart, hne, hcon⟩

theorem mem_local_modified {store0 : List (String × StateVal)}
    {table_name : String} {cfg : TableConfig} {datasource_name : String}
    {table : List Row} {i n : Nat} {r : Row}
    (h : r ∈ (partitionLocalChanges store0 table_name cfg datasource_name
      table i n).2.1) :
    r ∈ table ∧ rowPartIdx r (cfg.primary_key.getD "") n = i ∧
    pkString r (cfg.primary_key.getD "") ≠ "" ∧
    acontains (rowHashesOf (alookup store0
      (partitionSlotKey datasource_name table_name i n)))
      (pkString r (cfg.primary_key.getD "")) = true := by
  unfold partitionLocalChanges at h
  obtain ⟨hm, hne, hcon⟩ := mem_hashScan_modified h
  obtain ⟨ht, hpart⟩ := mem_partitionScanRows hm
  exact ⟨ht, hpart, hne, hcon⟩

theorem mem_local_deleted {store0 : List (String × StateVal)}
    {table_name : String} {cfg : TableConfig} {datasource_name : String}
    {table : List Row} {i n : Nat} {p : String}
    (h : p ∈ delPks (partitionLocalChanges store0 table_name cfg
      datasource_name table i n).2.2) :
    acontains (rowHashesOf (alookup store0
      (partitionSlotKey datasource_name table_name i n))) p = true ∧
    ∀ r ∈ table, rowPartIdx r (cfg.primary_key.getD "") n = i →
      pkString r (cfg.primary_key.getD "") ≠ "" →
      pkString r (cfg.primary_key.getD "") ≠ p := by
  unfold partitionLocalChanges at h
  obtain ⟨hprev, hcur⟩ := mem_hashDeleted h
  refine ⟨hprev, ?_⟩
  intro r hr hpart hne hpk
  have hmem := mem_partitionScanRows_intro hr hpart
  have := hashScan_cur_of_mem (rowHashesOf (alookup store0
    (partitionSlotKey datasource_name table_name i n)))
    (cfg.primary_key.getD "") cfg.hash_columns _ r hmem hne
  rw [hpk] at this
  rw [this] at hcur
  cases hcur

/-- C4: in every hash run, and in every hash-partition run whose state
slots are consistent with the partition function (every stored pk of slot
`j` belongs to partition `j`, which the strategy's own writes maintain),
no primary-key value appears in more than one of the `added`, `modified`,
`deleted` buckets. -/
theorem bucket_disjointness :
    (∀ (st : Storage) (table_name datasource_name now pk : String)
        (cfg : TableConfig) (table_rows : List Row),
      cfg.primary_key = some pk → pk ≠ "" → cfg.hash_columns ≠ [] →
      bucketsDisjoint
        (getRowsField (hashProcess st table_name cfg datasource_name
          table_rows now).1 "added")
        (getRowsField (hashProcess st table_name cfg datasource_name
          table_rows now).1 "modified")
        (getRowsField (hashProcess st table_name cfg datasource_name
          table_rows now).1 "deleted") pk) ∧
    (∀ (st : Storage) (table_name datasource_name now pk : String)
        (cfg : TableConfig) (table : List Row),
      cfg.primary_key = some pk → pk ≠ "" → cfg.hash_columns ≠ [] →
      (∀ j < numPartitions table.length (cfg.partition_size.getD 10000),
        ∀ r ∈ table,
        acontains (rowHashesOf (alookup st.store (partitionSlotKey
            datasource_name table_name j (numPartitions table.length
            (cfg.partition_size.getD 10000)))))
          (pkString r pk) = true →
        rowPartIdx r pk (numPartitions table.length
          (cfg.partition_size.getD 10000)) = j) →
      bucketsDisjoint
        (getRowsField (hashPartitionProcess st table_name cfg
          datasource_name table now).1 "added")
        (getRowsField (hashPartitionProcess st table_name cfg
          datasource_name table now).1 "modified")
        (getRowsField (hashPartitionProcess st table_name cfg
          datasource_name table now).1 "deleted") pk) := by
  constructor
  · intro st table_name datasource_name now pk cfg table_rows hpk hpkne hhc
    have hg2 : pyTruthyStr cfg.primary_key = true := by
      rw [hpk]
      simp [pyTruthyStr, hpkne]
    have hgetd : cfg.primary_key.getD "" = pk := by rw [hpk]; rfl
    rw [hashProcess_eq st table_name cfg datasource_name table_rows now hhc
      hg2, hgetd]
    simp only [getRowsField, alookup, String.reduceEq, reduceIte]
    constructor
    · intro p hp
      obtain ⟨ra, hra, hpa⟩ := List.mem_map.mp hp
      obtain ⟨hmem, hne, hcon⟩ := mem_hashScan_added hra
      constructor
      · intro hpm
        obtain ⟨rm, hrm, hpm1⟩ := List.mem_map.mp hpm
        obtain ⟨_, _, hconm⟩ := mem_hashScan_modified hrm
        rw [hpm1] at hconm
        rw [hpa] at hcon
        rw [hconm] at hcon
        cases hcon
      · intro hpd
        obtain ⟨hprevp, hcurp⟩ := mem_hashDeleted hpd
        have hcur := hashScan_cur_of_mem
          (rowHashesOf (alookup st.store
            (datasource_name ++ "/" ++ table_name ++ "/hash_state")))
          pk cfg.hash_columns _ ra hmem hne
        rw [hpa] at hcur
        rw [hcur] at hcurp
        cases hcurp
    · intro p hpm hpd
      obtain ⟨rm, hrm, hpm1⟩ := List.mem_map.mp hpm
      obtain ⟨hmemm, hnem, _⟩ := mem_hashScan_modified hrm
      obtain ⟨hprevp, hcurp⟩ := mem_hashDeleted hpd
      have hcur := hashScan_cur_of_mem
        (rowHashesOf (alookup st.store
          (datasource_name ++ "/" ++ table_name ++ "/hash_state")))
        pk cfg.hash_columns _ rm hmemm hnem
      rw [hpm1] at hcur
      rw [hcur] at hcurp
      cases hcurp
  · intro st table_name datasource_name now pk cfg table hpk hpkne hhc hcons
    have hg2 : pyTruthyStr cfg.primary_key = true := by
      rw [hpk]
      simp [pyTruthyStr, hpkne]
    have hgetd : cfg.primary_key.getD "" = pk := by rw [hpk]; rfl
    set n := numPartitions table.length (cfg.partition_size.getD 10000)
      with hn
    have hfold := partitionFold_changes table_name cfg datasource_name table
      n now st.store (List.range n)
      (rangeSlotKeys_pairwise datasource_name table_name n)
      (([], [], []), st) (fun i _ => rfl)
    rw [hashPartitionProcess_eq st table_name cfg datasource_name table now
      hhc hg2]
    simp only [getRowsField, alookup, String.reduceEq, reduceIte, ← hn]
    rw [hfold.1]
    simp only [List.nil_append]
    have hA : ∀ p, p ∈ rowPks ((List.range n).map (fun i =>
        (partitionLocalChanges st.store table_name cfg datasource_name table
          i n).1)).flatten pk →
        ∃ i < n, ∃ r ∈ table, pkString r pk = p ∧ rowPartIdx r pk n = i ∧
          pkString r pk ≠ "" ∧
          acontains (rowHashesOf (alookup st.store (partitionSlotKey
            datasource_name table_name i n))) p = false := by
      intro p hp
      obtain ⟨r, hr, hpr⟩ := List.mem_map.mp hp
      obtain ⟨chunk, hchunk, hrin⟩ := List.mem_flatten.mp hr
      obtain ⟨i, hi, rfl⟩ := List.mem_map.mp hchunk
      obtain ⟨ht, hpart, hne, hcon⟩ := mem_local_added hrin
      rw [hgetd] at hpart hne hcon
      exact ⟨i, List.mem_range.mp hi, r, ht, hpr, hpart, hne, hpr ▸ hcon⟩
    have hM : ∀ p, p ∈ rowPks ((List.range n).map (fun i =>
        (partitionLocalChanges st.store table_name cfg datasource_name table
          i n).2.1)).flatten pk →
        ∃ i < n, ∃ r ∈ table, pkString r pk = p ∧ rowPartIdx r pk n = i ∧
          pkString r pk ≠ "" ∧
          acontains (rowHashesOf (alookup st.store (partitionSlotKey
            datasource_name table_name i n))) p = true := by
      intro p hp
      obtain ⟨r, hr, hpr⟩ := List.mem_map.mp hp
      obtain ⟨chunk, hchunk, hrin⟩ := List.mem_flatten.mp hr
      obtain ⟨i, hi, rfl⟩ := List.mem_map.mp hchunk
      obtain ⟨ht, hpart, hne, hcon⟩ := mem_local_modified hrin
      rw [hgetd] at hpart hne hcon
      exact ⟨i, List.mem_range.mp hi, r, ht, hpr, hpart, hne, hpr ▸ hcon⟩
    have hD : ∀ p, p ∈ delPks ((List.range n).map (fun i =>
        (partitionLocalChanges st.store table_name cfg datasource_name table
          i n).2.2)).flatten →
        ∃ i < n,
          acontains (rowHashesOf (alookup st.store (partitionSlotKey
            datasource_name table_name i n))) p = true ∧
          ∀ r ∈ table, rowPartIdx r pk n = i → pkString r pk ≠ "" →
            pkString r pk ≠ p := by
      intro p hp
      obtain ⟨r, hr, hpr⟩ := List.mem_map.mp hp
      obtain ⟨chunk, hchunk, hrin⟩ := List.mem_flatten.mp hr
      obtain ⟨i, hi, rfl⟩ := List.mem_map.mp hchunk
      have hmem : p ∈ delPks (partitionLocalChanges st.store table_name cfg
          datasource_name table i n).2.2 := by
        rw [← hpr]
        exact List.mem_map.mpr ⟨r, hrin, rfl⟩
      obtain ⟨hprev, hnone⟩ := mem_local_deleted hmem
      rw [hgetd] at hnone
      exact ⟨i, List.mem_range.mp hi, hprev, hnone⟩
    constructor
    · intro p hp
      obtain ⟨i, hi, ra, hta, hpa, hparta, hnea, hcona⟩ := hA p hp
      constructor
      · intro hpm
        obtain ⟨j, hj, rm, htm, hpm1, hpartm, hnem, hconm⟩ := hM p hpm
        have hij : rowPartIdx ra pk n = j :=
          hcons j hj ra hta (hpa ▸ hconm)
        rw [hparta] at hij
        rw [← hij] at hconm
        rw [hconm] at hcona
        cases hcona
      · intro hpd
        obtain ⟨j, hj, hprevj, hnonej⟩ := hD p hpd
        have hij : rowPartIdx ra pk n = j :=
          hcons j hj ra hta (hpa ▸ hprevj)
        exact hnonej ra hta hij hnea hpa
    · intro p hpm hpd
      obtain ⟨i, hi, rm, htm, hpm1, hpartm, hnem, hconm⟩ := hM p hpm
      obtain ⟨j, hj, hprevj, hnonej⟩ := hD p hpd
      have hij : rowPartIdx rm pk n = j :=
        hcons j hj rm htm (hpm1 ▸ hprevj)
      exact hnonej rm htm hij hnem hpm1

/-- Witness for C4 at concrete inputs: a one-row hash run and a one-row
hash-partition run over empty previous state. -/
theorem bucket_disjointness_witness :
    bucketsDisjoint
      (getRowsField (hashProcess ⟨[], [], []⟩ "t"
        { method := "hash", primary_key := some "id",
          hash_columns := ["v"] } "ds"
        [[("id", Value.int 1), ("v", Value.str "a")]] "now").1 "added")
      (getRowsField (hashProcess ⟨[], [], []⟩ "t"
        { method := "hash", primary_key := some "id",
          hash_columns := ["v"] } "ds"
        [[("id", Value.int 1), ("v", Value.str "a")]] "now").1 "modified")
      (getRowsField (hashProcess ⟨[], [], []⟩ "t"
        { method := "hash", primary_key := some "id",
          hash_columns := ["v"] } "ds"
        [[("id", Value.int 1), ("v", Value.str "a")]] "now").1 "deleted")
      "id" ∧
    bucketsDisjoint
      (getRowsField (hashPartitionProcess ⟨[], [], []⟩ "t"
        { method := "hash-partition", primary_key := some "id",
          hash_columns := ["v"], partition_size := some 2 } "ds"
        [[("id", Value.int 1), ("v", Value.str "a")]] "now").1 "added")
      (getRowsField (hashPartitionProcess ⟨[], [], []⟩ "t"
        { method := "hash-partition", primary_key := some "id",
          hash_columns := ["v"], partition_size := some 2 } "ds"
        [[("id", Value.int 1), ("v", Value.str "a")]] "now").1 "modified")
      (getRowsField (hashPartitionProcess ⟨[], [], []⟩ "t"
        { method := "hash-partition", primary_key := some "id",
          hash_columns := ["v"], partition_size := some 2 } "ds"
        [[("id", Value.int 1), ("v", Value.str "a")]] "now").1 "deleted")
      "id" :=
  ⟨bucket_disjointness.1 ⟨[], [], []⟩ "t" "ds" "now" "id"
    { method := "hash", primary_key := some "id", hash_columns := ["v"] }
    [[("id", Value.int 1), ("v", Value.str "a")]] rfl (by decide)
    (by decide),
   bucket_disjointness.2 ⟨[], [], []⟩ "t" "ds" "now" "id"
    { method := "hash-partition", primary_key := some "id",
      hash_columns := ["v"], partition_size := some 2 }
    [[("id", Value.int 1), ("v", Value.str "a")]] rfl (by decide)
    (by decide) (by decide)⟩

/-- C8: a snapshot write request with format `csv` and at least one
non-empty bucket returns a success result, and stores, for each non-empty
bucket, a CSV artifact at `snapshots/<ds>/<table>/<ts>_<bucket>.csv` whose
header row is the column union across the bucket followed by the four
parquet-style metadata columns, with one row per record. The CSV strategy
itself is modelled from the specification (its module is not under src/);
the skip/dispatch pipeline around it is the code's. -/
theorem csv_snapshot_artifacts (table_name datasource_name : String)
    (changes : ChangeSet) (ts : SnapTimestamp) (default_format : String)
    (store : SnapStore) (h : hasChanges changes = true) :
    statusOf (saveChangesSnapshot table_name datasource_name changes
      (some "csv") ts default_format store).1 = some "success" ∧
    (changes.added ≠ [] →
      ("snapshots/" ++ datasource_name ++ "/" ++ table_name ++ "/" ++
         ts.key ++ "_added.csv",
       SnapPayload.csvDoc (unionCols changes.added ++ cdcMetaCols)
         ((withMeta changes.added "added" ts.iso table_name
            datasource_name).map
           (fun r => (unionCols changes.added ++ cdcMetaCols).map
             (csvCell r)))) ∈
        (saveChangesSnapshot table_name datasource_name changes
          (some "csv") ts default_format store).2) ∧
    (changes.modified ≠ [] →
      ("snapshots/" ++ datasource_name ++ "/" ++ table_name ++ "/" ++
         ts.key ++ "_modified.csv",
       SnapPayload.csvDoc (unionCols changes.modified ++ cdcMetaCols)
         ((withMeta changes.modified "modified" ts.iso table_name
            datasource_name).map
           (fun r => (unionCols changes.modified ++ cdcMetaCols).map
             (csvCell r)))) ∈
        (saveChangesSnapshot table_name datasource_name changes
          (some "csv") ts default_format store).2) ∧
    (changes.deleted ≠ [] →
      ("snapshots/" ++ datasource_name ++ "/" ++ table_name ++ "/" ++
         ts.key ++ "_deleted.csv",
       SnapPayload.csvDoc (unionCols changes.deleted ++ cdcMetaCols)
         ((withMeta changes.deleted "deleted" ts.iso table_name
            datasource_name).map
           (fun r => (unionCols changes.deleted ++ cdcMetaCols).map
             (csvCell r)))) ∈
        (saveChangesSnapshot table_name datasource_name changes
          (some "csv") ts default_format store).2) := by
  have hj : createSnapshotStrategy "csv" = some "csv" := by decide
  by_cases ha : changes.added = [] <;> by_cases hm : changes.modified = []
    <;> by_cases hd : changes.deleted = []
  · exfalso
    simp [hasChanges, ha, hm, hd] at h
  all_goals
    refine ⟨?_, ?_, ?_, ?_⟩ <;>
      simp [saveChangesSnapshot, validateChanges, h, hj,
        strategySaveSnapshot, csvSaveSnapshot, csvBucketSave, ha, hm, hd,
        generateFilename, statusOf, resultUpdate, ainsert, alookup,
        String.append_assoc]

/-- Witness for C8 at a concrete input: one added record. -/
theorem csv_snapshot_artifacts_witness :
    statusOf (saveChangesSnapshot "t" "ds" ⟨[[("a", Value.str "x")]], [], []⟩
      (some "csv") ⟨"20260101_120000", "2026-01-01T12:00:00"⟩ "json" []).1 =
      some "success" :=
  (csv_snapshot_artifacts "t" "ds" ⟨[[("a", Value.str "x")]], [], []⟩
    ⟨"20260101_120000", "2026-01-01T12:00:00"⟩ "json" [] (by decide)).1

/-- C9 (counterexample): a table whose strategy succeeds but whose
snapshot save raises does NOT get an error-status result: `process_table`
returns status `success` with a `snapshot: {status: error}` sub-field
(the helper's `try/except` swallows the exception), contradicting the
claim that a raising snapshot save yields a result with status error. -/
theorem orchestrator_snapshot_error_counterexample :
    statusOf (processTable "t"
      (some { datasource := some "ds", method := "hash",
              primary_key := some "id", hash_columns := ["v"] }) true
      (.ok [("status", RVal.s "success")]) (.error "boom")) =
      some "success" ∧
    (some "success" : Option String) ≠ some "error" ∧
    alookup (processTable "t"
      (some { datasource := some "ds", method := "hash",
              primary_key := some "id", hash_columns := ["v"] }) true
      (.ok [("status", RVal.s "success")]) (.error "boom")) "snapshot" =
      some (RVal.dict [("status", RVal.s "error"),
        ("message", RVal.s "Snapshot save failed: boom")]) := by
  refine ⟨rfl, by decide, rfl⟩

/-- C9 (amended): a missing configuration, a missing datasource, an
unsupported method, and a strategy that raises all yield a result
dictionary with status `error` — the exception never propagates, since
`processTable` is a total function into result dictionaries; a snapshot
save that raises is caught inside the snapshot helper and recorded as a
`snapshot` sub-dictionary with status `error` on a result whose own
status stays `success`; and `process_all_tables` produces exactly one
result entry per configured table, keyed by table name. -/
theorem orchestrator_error_handling_amended :
    (∀ (table_name : String) (snapshot_enabled : Bool)
        (strategyRun snapBody : Except String RDict),
      statusOf (processTable table_name none snapshot_enabled strategyRun
        snapBody) = some "error") ∧
    (∀ (table_name : String) (cfg : TableConfig) (snapshot_enabled : Bool)
        (e : String) (snapBody : Except String RDict),
      statusOf (processTable table_name (some cfg) snapshot_enabled
        (.error e) snapBody) = some "error") ∧
    (∀ (table_name : String) (cfg : TableConfig) (result : RDict)
        (e : String),
      pyTruthyStr cfg.datasource = true →
      supportedMethods.contains (pyLower cfg.method) = true →
      statusOf result = some "success" →
      statusOf (processTable table_name (some cfg) true (.ok result)
        (.error e)) = some "success" ∧
      alookup (processTable table_name (some cfg) true (.ok result)
        (.error e)) "snapshot" =
        some (RVal.dict [("status", RVal.s "error"),
          ("message", RVal.s ("Snapshot save failed: " ++ e))])) ∧
    (∀ (tables : List String) (cfgOf : String → Option TableConfig)
        (snapshot_enabled : Bool)
        (strategyRunOf snapBodyOf : String → Except String RDict),
      (processAllTables tables cfgOf snapshot_enabled strategyRunOf
        snapBodyOf).map Prod.fst = tables) := by
  refine ⟨?_, ?_, ?_, ?_⟩
  · intro table_name snapshot_enabled strategyRun snapBody
    simp [processTable, errResult, statusOf, alookup]
  · intro table_name cfg snapshot_enabled e snapBody
    unfold processTable
    by_cases h1 : pyTruthyStr cfg.datasource = true
    · by_cases h2 : pyLower cfg.method ∈ supportedMethods
      · simp [h1, h2, errResult, statusOf, alookup]
      · simp [h1, h2, errResult, statusOf, alookup]
    · simp [h1, errResult, statusOf, alookup]
  · intro table_name cfg result e h1 h2 h3
    unfold processTable
    dsimp only
    rw [h1, h2]
    simp only [Bool.not_true, if_false, ite_false, Bool.false_eq_true]
    rw [if_neg (by simp), if_neg (by simp)]
    rw [if_pos ⟨h3, trivial⟩]
    constructor
    · have : statusOf (ainsert result "snapshot"
          (RVal.dict (saveSnapshotGuard (.error e)))) = statusOf result := by
        unfold statusOf
        rw [show alookup (ainsert result "snapshot"
            (RVal.dict (saveSnapshotGuard (.error e)))) "status" =
          alookup result "status" from by
            rw [alookup_ainsert]
            simp]
      rw [this, h3]
    · rw [alookup_ainsert]
      simp [saveSnapshotGuard, errResult]
  · intro tables cfgOf snapshot_enabled strategyRunOf snapBodyOf
    unfold processAllTables
    rw [List.map_map]
    exact List.map_id' tables

/-- Witness for the amended C9 at concrete inputs: a raising strategy and
a raising snapshot save. -/
theorem orchestrator_error_handling_amended_witness :
    statusOf (processTable "t"
      (some { datasource := some "ds", method := "hash" }) true
      (.error "db down") (.ok [])) = some "error" ∧
    statusOf (processTable "t"
      (some { datasource := some "ds", method := "hash" }) true
      (.ok [("status", RVal.s "success")]) (.error "io")) =
      some "success" :=
  ⟨orchestrator_error_handling_amended.2.1 "t"
    { datasource := some "ds", method := "hash" } true "db down" (.ok []),
   (orchestrator_error_handling_amended.2.2.1 "t"
    { datasource := some "ds", method := "hash" }
    [("status", RVal.s "success")] "io" (by decide) (by decide)
    (by decide)).1⟩
